import Mathlib

/-!
Verification development for the devlog-desk repository
(`src/src-tauri/src/main.rs` and `src/src-tauri/src/bin/devlog-cli.rs`).

The Rust code is shallowly embedded: strings are Lean `String`s (processed
as their underlying `List Char`, matching Rust's `char`-based iteration),
fallible commands return `Except String`, and the impure inputs of each
command (clock readings, generated ids) are passed as explicit parameters.
Rust `u32`/`i64` values are modelled as `ℕ`/`ℤ`; none of the verified
operations can overflow on the data the program handles, and the parsing
functions note where a width bound exists in the source.
-/

namespace DevlogDesk

/-! ### Character primitives (Rust `char` ASCII helpers) -/

/-- Code-point value of a character, the basis of all comparisons below. -/
def charVal (c : Char) : ℕ := c.toNat

/-- Rust `char::is_whitespace` (Unicode `White_Space`), used by `str::trim`
and `str::trim_start`. -/
def isRustWhitespace (c : Char) : Bool :=
  (9 ≤ charVal c && charVal c ≤ 13) || charVal c = 32 || charVal c = 133 ||
  charVal c = 160 || charVal c = 5760 || (8192 ≤ charVal c && charVal c ≤ 8202) ||
  charVal c = 8232 || charVal c = 8233 || charVal c = 8239 || charVal c = 8287 ||
  charVal c = 12288

/-- Rust `char::is_ascii_whitespace`: space, tab, newline, form feed, carriage return. -/
def isAsciiWs (c : Char) : Bool :=
  charVal c = 32 || charVal c = 9 || charVal c = 10 || charVal c = 12 || charVal c = 13

/-- ASCII digit `0`-`9` (Rust integer parsing accepts only these). -/
def isDigitC (c : Char) : Bool :=
  48 ≤ charVal c && charVal c ≤ 57

/-- Rust `char::is_ascii_alphanumeric`. -/
def isAsciiAlnum (c : Char) : Bool :=
  (48 ≤ charVal c && charVal c ≤ 57) || (65 ≤ charVal c && charVal c ≤ 90) ||
  (97 ≤ charVal c && charVal c ≤ 122)

/-- Rust `char::to_ascii_lowercase`. -/
def toAsciiLower (c : Char) : Char :=
  if 65 ≤ charVal c ∧ charVal c ≤ 90 then Char.ofNat (charVal c + 32) else c

/-! ### String primitives (Rust `str` helpers, on `List Char`) -/

/-- Rust `str::trim`: drop Unicode whitespace from both ends. -/
def trimL (cs : List Char) : List Char :=
  ((cs.dropWhile isRustWhitespace).reverse.dropWhile isRustWhitespace).reverse

/-- Rust `str::trim` on `String`. -/
def trimS (s : String) : String := ⟨trimL s.data⟩

/-- Rust `str::strip_prefix p`: `some rest` when the string starts with `p`. -/
def dropPref : List Char → List Char → Option (List Char)
  | [], rest => some rest
  | _ :: _, [] => none
  | p :: ps, c :: cs => if c = p then dropPref ps cs else none

/-- Rust byte/code-point lexicographic `str` comparison (`a <= b` of `Ord::cmp`);
on UTF-8 strings byte order and code-point order agree. -/
def strLeL : List Char → List Char → Bool
  | [], _ => true
  | _ :: _, [] => false
  | a :: as, b :: bs =>
    if charVal a < charVal b then true
    else if charVal a = charVal b then strLeL as bs
    else false

/-- String `<=` as the Rust `Ord` on `String` orders it. -/
def strLe (a b : String) : Bool := strLeL a.data b.data

/-- String `<` as the Rust `Ord` on `String` orders it. -/
def strLt (a b : String) : Bool := !strLe b a

/-! ### Decimal parsing and printing -/

/-- Numeric value of the decimal digits in `cs` (meaningful when all are digits). -/
def parseDigits (cs : List Char) : ℕ :=
  cs.foldl (fun acc c => acc * 10 + (charVal c - 48)) 0

/-- Rust `str::parse::<u32>`: an optional leading `+`, then one or more ASCII
digits. The `u32` width bound (values `≥ 2^32` are rejected by Rust) is not
modelled: sprint numbers are produced by this program's own sequential
allocator and stay far below it. -/
def parseNatL (cs : List Char) : Option ℕ :=
  let ds := if cs.head? = some '+' then cs.tail else cs
  if ds ≠ [] ∧ ds.all isDigitC then some (parseDigits ds) else none

/-- Decimal digit character for `n ≤ 9`. -/
def digitChar : ℕ → Char
  | 0 => '0' | 1 => '1' | 2 => '2' | 3 => '3' | 4 => '4'
  | 5 => '5' | 6 => '6' | 7 => '7' | 8 => '8' | _ => '9'

/-- Fuel-driven decimal printer (`fuel > n` suffices). -/
def natDigitsAux : ℕ → ℕ → List Char
  | 0, _ => []
  | fuel + 1, n => if n < 10 then [digitChar n] else natDigitsAux fuel (n / 10) ++ [digitChar (n % 10)]

/-- Decimal representation of `n`, as Rust `format!("{n}")` prints it. -/
def natDigits (n : ℕ) : List Char := natDigitsAux (n + 1) n

/-! ### `sprint_number` and `format_sprint_code` (main.rs lines 246-272) -/

/-- Prefix stripping step of `sprint_number`: try `sprint-`, then `sprint `,
then `sprint` (on the already-lowercased value). -/
def sprintStrip (value : List Char) : Option (List Char) :=
  match dropPref "sprint-".data value with
  | some rest => some rest
  | none =>
    match dropPref "sprint ".data value with
    | some rest => some rest
    | none => dropPref "sprint".data value

/-- Digit-cleanup step of `sprint_number`:
`rest.trim().trim_start_matches('-').trim_start_matches('_').trim()`. -/
def sprintDigits (rest : List Char) : List Char :=
  trimL (((trimL rest).dropWhile (fun c => c = '-')).dropWhile (fun c => c = '_'))

/-- `sprint_number` from main.rs: trim and ASCII-lowercase the input, try a
plain integer parse, otherwise strip a `sprint-`/`sprint `/`sprint` prefix,
drop leading `-`/`_` runs and surrounding whitespace, and parse the rest. -/
def sprintNumberL (raw : List Char) : Option ℕ :=
  let value := (trimL raw).map toAsciiLower
  if value = [] then none
  else
    match parseNatL value with
    | some n => some n
    | none =>
      match sprintStrip value with
      | none => none
      | some rest => parseNatL (sprintDigits rest)

/-- `sprint_number` on `String`. -/
def sprintNumber (s : String) : Option ℕ := sprintNumberL s.data

/-- `format_sprint_code` from main.rs: `format!("sprint-{number}")`. -/
def formatSprintCode (n : ℕ) : String := ⟨"sprint-".data ++ natDigits n⟩

/-! ### Facts about the character and string primitives -/

lemma charVal_inj {a b : Char} (h : charVal a = charVal b) : a = b :=
  Char.ext (UInt32.ext h)

lemma strLeL_cons_of_lt {x y : Char} {xs ys : List Char} (h : charVal x < charVal y) :
    strLeL (x :: xs) (y :: ys) = true := by
  simp only [strLeL, if_pos h]

lemma strLeL_cons_of_eq {x y : Char} {xs ys : List Char} (h : charVal x = charVal y) :
    strLeL (x :: xs) (y :: ys) = strLeL xs ys := by
  simp only [strLeL, if_neg (show ¬ charVal x < charVal y by omega), if_pos h]

lemma strLeL_cons_of_gt {x y : Char} {xs ys : List Char} (h : charVal y < charVal x) :
    strLeL (x :: xs) (y :: ys) = false := by
  simp only [strLeL, if_neg (show ¬ charVal x < charVal y by omega),
    if_neg (show ¬ charVal x = charVal y by omega)]

lemma strLeL_total : ∀ a b : List Char, strLeL a b = true ∨ strLeL b a = true := by
  intro a
  induction a with
  | nil => intro b; left; rfl
  | cons x xs ih =>
    intro b
    cases b with
    | nil => right; rfl
    | cons y ys =>
      rcases Nat.lt_trichotomy (charVal x) (charVal y) with h | h | h
      · left; exact strLeL_cons_of_lt h
      · rcases ih ys with hc | hc
        · left; rw [strLeL_cons_of_eq h]; exact hc
        · right; rw [strLeL_cons_of_eq h.symm]; exact hc
      · right; exact strLeL_cons_of_lt h

lemma strLeL_trans :
    ∀ a b c : List Char, strLeL a b = true → strLeL b c = true → strLeL a c = true := by
  intro a
  induction a with
  | nil => intro b c _ _; rfl
  | cons x xs ih =>
    intro b c hab hbc
    cases b with
    | nil => exact absurd hab (by simp [strLeL])
    | cons y ys =>
      cases c with
      | nil => exact absurd hbc (by simp [strLeL])
      | cons z zs =>
        rcases Nat.lt_trichotomy (charVal x) (charVal y) with h1 | h1 | h1
        · rcases Nat.lt_trichotomy (charVal y) (charVal z) with h2 | h2 | h2
          · exact strLeL_cons_of_lt (by omega)
          · exact strLeL_cons_of_lt (by omega)
          · rw [strLeL_cons_of_gt h2] at hbc; exact absurd hbc (by simp)
        · rw [strLeL_cons_of_eq h1] at hab
          rcases Nat.lt_trichotomy (charVal y) (charVal z) with h2 | h2 | h2
          · exact strLeL_cons_of_lt (by omega)
          · rw [strLeL_cons_of_eq h2] at hbc
            rw [strLeL_cons_of_eq (by omega)]
            exact ih ys zs hab hbc
          · rw [strLeL_cons_of_gt h2] at hbc; exact absurd hbc (by simp)
        · rw [strLeL_cons_of_gt h1] at hab; exact absurd hab (by simp)

lemma strLeL_antisymm :
    ∀ a b : List Char, strLeL a b = true → strLeL b a = true → a = b := by
  intro a
  induction a with
  | nil =>
    intro b _ hba
    cases b with
    | nil => rfl
    | cons y ys => exact absurd hba (by simp [strLeL])
  | cons x xs ih =>
    intro b hab hba
    cases b with
    | nil => exact absurd hab (by simp [strLeL])
    | cons y ys =>
      rcases Nat.lt_trichotomy (charVal x) (charVal y) with h1 | h1 | h1
      · rw [strLeL_cons_of_gt h1] at hba; exact absurd hba (by simp)
      · rw [strLeL_cons_of_eq h1] at hab
        rw [strLeL_cons_of_eq h1.symm] at hba
        rw [charVal_inj h1, ih ys hab hba]
      · rw [strLeL_cons_of_gt h1] at hab; exact absurd hab (by simp)

lemma strLe_total (a b : String) : strLe a b = true ∨ strLe b a = true :=
  strLeL_total a.data b.data

lemma strLe_trans {a b c : String} (h1 : strLe a b = true) (h2 : strLe b c = true) :
    strLe a c = true :=
  strLeL_trans a.data b.data c.data h1 h2

lemma strLe_antisymm {a b : String} (h1 : strLe a b = true) (h2 : strLe b a = true) :
    a = b := by
  cases a; cases b
  exact congrArg String.mk (strLeL_antisymm _ _ h1 h2)

lemma strLe_refl (a : String) : strLe a a = true := by
  rcases strLe_total a a with h | h <;> exact h

lemma strLt_iff {a b : String} : strLt a b = true ↔ strLe b a = false := by
  simp [strLt]

lemma strLe_of_not_lt {a b : String} (h : ¬ strLt a b = true) : strLe b a = true := by
  simp [strLt] at h
  exact h

lemma strLt_of_le_ne {a b : String} (hle : strLe a b = true) (hne : a ≠ b) :
    strLt a b = true := by
  rw [strLt_iff]
  by_contra h
  exact hne (strLe_antisymm hle (by simpa using h))

/-! ### Decimal roundtrip facts -/

lemma parseDigits_append (cs : List Char) (c : Char) :
    parseDigits (cs ++ [c]) = parseDigits cs * 10 + (charVal c - 48) := by
  simp [parseDigits, List.foldl_append]

lemma digitChar_spec {n : ℕ} (h : n ≤ 9) :
    isDigitC (digitChar n) = true ∧ charVal (digitChar n) = 48 + n := by
  interval_cases n <;> exact ⟨by decide, by decide⟩

lemma natDigitsAux_spec :
    ∀ fuel n, n < fuel →
      natDigitsAux fuel n ≠ [] ∧ (∀ c ∈ natDigitsAux fuel n, isDigitC c = true) ∧
        parseDigits (natDigitsAux fuel n) = n := by
  intro fuel
  induction fuel with
  | zero => intro n hn; omega
  | succ f ih =>
    intro n hn
    by_cases h10 : n < 10
    · refine ⟨by simp [natDigitsAux, h10], ?_, ?_⟩
      · intro c hc
        simp [natDigitsAux, h10] at hc
        rw [hc]
        exact (digitChar_spec (by omega)).1
      · have hv := (digitChar_spec (show n ≤ 9 by omega)).2
        simp [natDigitsAux, h10, parseDigits, hv]
    · have hd : n / 10 < f := by
        have := Nat.div_lt_self (show 0 < n by omega) (show 1 < 10 by norm_num)
        omega
      obtain ⟨h1, h2, h3⟩ := ih (n / 10) hd
      have hm : n % 10 ≤ 9 := by omega
      refine ⟨by simp [natDigitsAux, h10], ?_, ?_⟩
      · intro c hc
        simp only [natDigitsAux, h10, if_neg, if_false, List.mem_append,
          List.mem_singleton, ite_false] at hc
        rcases hc with hc | hc
        · exact h2 c hc
        · rw [hc]; exact (digitChar_spec hm).1
      · simp only [natDigitsAux, h10, ite_false]
        rw [parseDigits_append, h3, (digitChar_spec hm).2]
        omega

lemma natDigits_spec (n : ℕ) :
    natDigits n ≠ [] ∧ (∀ c ∈ natDigits n, isDigitC c = true) ∧
      parseDigits (natDigits n) = n :=
  natDigitsAux_spec (n + 1) n (Nat.lt_succ_self n)

lemma isDigitC_not_ws {c : Char} (h : isDigitC c = true) : isRustWhitespace c = false := by
  simp only [isDigitC, Bool.and_eq_true, decide_eq_true_eq] at h
  simp only [isRustWhitespace, Bool.or_eq_false_iff, Bool.and_eq_false_iff,
    decide_eq_false_iff_not]
  omega

lemma isDigitC_lower {c : Char} (h : isDigitC c = true) : toAsciiLower c = c := by
  simp only [isDigitC, Bool.and_eq_true, decide_eq_true_eq] at h
  rw [toAsciiLower, if_neg]
  omega

lemma isDigitC_ne_of_not {c d : Char} (h : isDigitC c = true) (hd : isDigitC d = false) :
    c ≠ d := by
  intro he
  rw [he] at h
  rw [h] at hd
  exact Bool.noConfusion hd

lemma dropWhile_eq_self {p : Char → Bool} {cs : List Char}
    (h : ∀ c ∈ cs, p c = false) : cs.dropWhile p = cs := by
  cases cs with
  | nil => rfl
  | cons x xs =>
    rw [List.dropWhile_cons, if_neg]
    simp [h x (List.mem_cons_self x xs)]

lemma trimL_eq_self {cs : List Char}
    (h : ∀ c ∈ cs, isRustWhitespace c = false) : trimL cs = cs := by
  unfold trimL
  rw [dropWhile_eq_self h, dropWhile_eq_self, List.reverse_reverse]
  intro c hc
  exact h c (by simpa using hc)

lemma dropPref_self_append : ∀ (p rest : List Char), dropPref p (p ++ rest) = some rest := by
  intro p
  induction p with
  | nil => intro rest; rfl
  | cons x xs ih => intro rest; simp [dropPref, ih]

lemma map_eq_self_of {f : Char → Char} {cs : List Char}
    (h : ∀ c ∈ cs, f c = c) : cs.map f = cs := by
  induction cs with
  | nil => rfl
  | cons x xs ih =>
    simp only [List.map_cons, h x (List.mem_cons_self x xs)]
    rw [ih fun c hc => h c (List.mem_cons_of_mem x hc)]

/-- A list starting with a non-digit other than `+` does not parse as a number. -/
lemma parseNatL_not_digit {c : Char} {cs : List Char} (hc : c ≠ '+')
    (hd : isDigitC c = false) : parseNatL (c :: cs) = none := by
  unfold parseNatL
  rw [if_neg (show ¬ ((c :: cs).head? = some '+') by simpa using hc), if_neg]
  intro hcon
  have hall := hcon.2
  simp only [List.all_cons, Bool.and_eq_true] at hall
  rw [hall.1] at hd
  exact Bool.noConfusion hd

/-- A nonempty all-digit list (not starting with `+`, since digits are not `+`)
parses to its digit value. -/
lemma parseNatL_digits {cs : List Char} (hne : cs ≠ [])
    (hdig : ∀ c ∈ cs, isDigitC c = true) : parseNatL cs = some (parseDigits cs) := by
  obtain ⟨d, t, hdt⟩ := List.exists_cons_of_ne_nil hne
  have hd : isDigitC d = true := hdig d (by rw [hdt]; exact List.mem_cons_self d t)
  have hplus : ¬ cs.head? = some '+' := by
    rw [hdt]
    simp only [List.head?_cons, Option.some.injEq]
    exact isDigitC_ne_of_not hd (by decide)
  unfold parseNatL
  rw [if_neg hplus, if_pos ⟨hne, List.all_eq_true.mpr hdig⟩]

/-- Parsing a formatted sprint code recovers the number: the roundtrip at the
heart of normalization stability. -/
lemma sprintNumber_format (n : ℕ) : sprintNumber (formatSprintCode n) = some n := by
  obtain ⟨hne, hdig, hval⟩ := natDigits_spec n
  have hdata : (formatSprintCode n).data = "sprint-".data ++ natDigits n := rfl
  have hpref : "sprint-".data = ['s', 'p', 'r', 'i', 'n', 't', '-'] := rfl
  have hws : ∀ c ∈ "sprint-".data ++ natDigits n, isRustWhitespace c = false := by
    intro c hc
    rcases List.mem_append.mp hc with h | h
    · rw [hpref] at h
      simp only [List.mem_cons, List.not_mem_nil, or_false] at h
      rcases h with h | h | h | h | h | h | h <;> (rw [h]; decide)
    · exact isDigitC_not_ws (hdig c h)
  have hlow : ∀ c ∈ "sprint-".data ++ natDigits n, toAsciiLower c = c := by
    intro c hc
    rcases List.mem_append.mp hc with h | h
    · rw [hpref] at h
      simp only [List.mem_cons, List.not_mem_nil, or_false] at h
      rcases h with h | h | h | h | h | h | h <;> (rw [h]; decide)
    · exact isDigitC_lower (hdig c h)
  have hvne : "sprint-".data ++ natDigits n ≠ [] := by
    rw [hpref]; simp
  have hparse1 : parseNatL ("sprint-".data ++ natDigits n) = none := by
    rw [hpref]
    simp only [List.cons_append]
    exact parseNatL_not_digit (by decide) (by decide)
  have hstrip : sprintStrip ("sprint-".data ++ natDigits n) = some (natDigits n) := by
    unfold sprintStrip
    rw [dropPref_self_append]
  have htr : trimL (natDigits n) = natDigits n :=
    trimL_eq_self fun c hc => isDigitC_not_ws (hdig c hc)
  have hdigits : sprintDigits (natDigits n) = natDigits n := by
    unfold sprintDigits
    rw [htr]
    rw [dropWhile_eq_self (fun c hc =>
      decide_eq_false (isDigitC_ne_of_not (hdig c hc) (by decide)))]
    rw [dropWhile_eq_self (fun c hc =>
      decide_eq_false (isDigitC_ne_of_not (hdig c hc) (by decide)))]
    exact htr
  unfold sprintNumber sprintNumberL
  simp only [hdata, trimL_eq_self hws, map_eq_self_of hlow, if_neg hvne, hparse1,
    hstrip, hdigits, parseNatL_digits hne hdig, hval]

/-- Distinct numbers give distinct formatted codes. -/
lemma formatSprintCode_inj {a b : ℕ} (h : formatSprintCode a = formatSprintCode b) :
    a = b := by
  have ha := sprintNumber_format a
  rw [h, sprintNumber_format b] at ha
  exact (Option.some.injEq _ _).mp ha.symm

/-! ### Data model: sprints (struct `Sprint` in main.rs) -/

structure Sprint where
  id : String
  code : String
  name : String
  start_date : String
  end_date : Option String
  created_at : String
deriving DecidableEq, Repr

/-- Creation-order comparison: every `ORDER BY created_at` in the source and
the `sort_by` on `created_at` in `ensure_sprint_codes_db` compare this field
as a string. Rust's `sort_by` is stable, which Mathlib's `insertionSort`
models exactly. -/
def createdLe (a b : Sprint) : Prop := strLe a.created_at b.created_at = true

instance : DecidableRel createdLe := fun a b =>
  inferInstanceAs (Decidable (strLe a.created_at b.created_at = true))

instance : IsTotal Sprint createdLe := ⟨fun a b => strLe_total a.created_at b.created_at⟩

instance : IsTrans Sprint createdLe := ⟨fun _ _ _ h1 h2 => strLe_trans h1 h2⟩

/-! ### Sprint-code normalization (`ensure_sprint_codes_db`, main.rs lines 561-628) -/

/-- The collision loop of `ensure_sprint_codes_db`:
`candidate = highest + 1; while used.contains(candidate) { candidate += 1 }`.
Fuel `used.card + 1` always suffices to leave the finite `used` set. -/
def firstFreeAux (used : Finset ℕ) : ℕ → ℕ → ℕ
  | 0, c => c
  | fuel + 1, c => if c ∈ used then firstFreeAux used fuel (c + 1) else c

def firstFree (used : Finset ℕ) (highest : ℕ) : ℕ :=
  firstFreeAux used (used.card + 1) (highest + 1)

/-- Number chosen for one scanned row: keep a parsed number that is not yet
used, otherwise take the smallest unused number above `highest`. -/
def chooseNumber (used : Finset ℕ) (highest : ℕ) : Option ℕ → ℕ
  | some v => if v ∈ used then firstFree used highest else v
  | none => firstFree used highest

/-- Parsed number of a sprint row:
`sprint_number(code).or_else(|| sprint_number(name))`. -/
def rowNumber (s : Sprint) : Option ℕ :=
  match sprintNumber s.code with
  | some v => some v
  | none => sprintNumber s.name

/-- The scan of `ensure_sprint_codes_db` over rows already sorted by
`created_at`, carrying the `used` set and the running `highest`
(`if chosen > highest { highest = chosen }` is `max`); each row is paired
with its chosen number. -/
def normalizeWalk : List Sprint → Finset ℕ → ℕ → List (Sprint × ℕ)
  | [], _, _ => []
  | r :: rest, used, highest =>
    let chosen := chooseNumber used highest (rowNumber r)
    (r, chosen) :: normalizeWalk rest (insert chosen used) (max highest chosen)

/-- Writing the chosen code back into a row. The source issues an
`UPDATE sprints SET code` only when the code differs, which stores the same
codes as rewriting every row. -/
def applyCode (p : Sprint × ℕ) : Sprint :=
  { p.1 with code := formatSprintCode p.2 }

/-- `ensure_sprint_codes_db`: sort all sprints by `created_at`, scan them
claiming numbers, and rewrite every code to `sprint-<chosen>`. The result is
in scan order; the store keys sprints by id, so row order carries no
information. -/
def ensureSprintCodes (rows : List Sprint) : List Sprint :=
  (normalizeWalk (rows.insertionSort createdLe) ∅ 0).map applyCode

/-! ### Facts about normalization -/

lemma firstFreeAux_not_mem (used : Finset ℕ) :
    ∀ fuel c, (used.filter (c ≤ ·)).card < fuel → firstFreeAux used fuel c ∉ used := by
  intro fuel
  induction fuel with
  | zero => intro c h; omega
  | succ f ih =>
    intro c h
    by_cases hc : c ∈ used
    · simp only [firstFreeAux, if_pos hc]
      apply ih
      have hsub : used.filter (c + 1 ≤ ·) ⊂ used.filter (c ≤ ·) := by
        constructor
        · intro x hx
          simp only [Finset.mem_filter] at hx ⊢
          exact ⟨hx.1, by omega⟩
        · intro hcon
          have := hcon (Finset.mem_filter.mpr ⟨hc, le_refl c⟩)
          simp only [Finset.mem_filter] at this
          omega
      have := Finset.card_lt_card hsub
      omega
    · simp only [firstFreeAux, if_neg hc]
      exact hc

lemma firstFree_not_mem (used : Finset ℕ) (highest : ℕ) : firstFree used highest ∉ used :=
  firstFreeAux_not_mem used _ _
    (Nat.lt_succ_of_le (Finset.card_filter_le used _))

lemma chooseNumber_not_mem (used : Finset ℕ) (highest : ℕ) (p : Option ℕ) :
    chooseNumber used highest p ∉ used := by
  cases p with
  | none => exact firstFree_not_mem used highest
  | some v =>
    simp only [chooseNumber]
    by_cases hv : v ∈ used
    · rw [if_pos hv]; exact firstFree_not_mem used highest
    · rw [if_neg hv]; exact hv

lemma normalizeWalk_map_fst :
    ∀ (rows : List Sprint) (used : Finset ℕ) (highest : ℕ),
      (normalizeWalk rows used highest).map Prod.fst = rows := by
  intro rows
  induction rows with
  | nil => intro used highest; rfl
  | cons r rest ih =>
    intro used highest
    simp only [normalizeWalk, List.map_cons, ih]

lemma normalizeWalk_not_mem_and_nodup :
    ∀ (rows : List Sprint) (used : Finset ℕ) (highest : ℕ),
      (∀ p ∈ normalizeWalk rows used highest, p.2 ∉ used) ∧
        ((normalizeWalk rows used highest).map Prod.snd).Nodup := by
  intro rows
  induction rows with
  | nil => intro used highest; simp [normalizeWalk]
  | cons r rest ih =>
    intro used highest
    obtain ⟨ih1, ih2⟩ :=
      ih (insert (chooseNumber used highest (rowNumber r)) used)
        (max highest (chooseNumber used highest (rowNumber r)))
    constructor
    · intro p hp
      simp only [normalizeWalk, List.mem_cons] at hp
      rcases hp with hp | hp
      · rw [hp]; exact chooseNumber_not_mem used highest (rowNumber r)
      · intro hmem
        exact ih1 p hp (Finset.mem_insert_of_mem hmem)
    · simp only [normalizeWalk, List.map_cons, List.nodup_cons]
      refine ⟨?_, ih2⟩
      intro hmem
      obtain ⟨p, hp, hpv⟩ := List.mem_map.mp hmem
      have := ih1 p hp
      rw [hpv] at this
      exact this (Finset.mem_insert_self _ _)

lemma rowNumber_applyCode (p : Sprint × ℕ) : rowNumber (applyCode p) = some p.2 := by
  simp only [rowNumber, applyCode, sprintNumber_format]

lemma chooseNumber_some_of_not_mem {used : Finset ℕ} {highest v : ℕ} (h : v ∉ used) :
    chooseNumber used highest (some v) = v := by
  simp only [chooseNumber]
  rw [if_neg h]

lemma normalizeWalk_roundtrip :
    ∀ (rows : List Sprint) (used : Finset ℕ) (highest : ℕ),
      normalizeWalk ((normalizeWalk rows used highest).map applyCode) used highest
        = (normalizeWalk rows used highest).map (fun p => (applyCode p, p.2)) := by
  intro rows
  induction rows with
  | nil => intro used highest; rfl
  | cons r rest ih =>
    intro used highest
    have hfree := chooseNumber_not_mem used highest (rowNumber r)
    simp only [normalizeWalk, List.map_cons]
    rw [rowNumber_applyCode, chooseNumber_some_of_not_mem hfree]
    rw [ih]

lemma applyCode_created_at (p : Sprint × ℕ) : (applyCode p).created_at = p.1.created_at := rfl

lemma ensureSprintCodes_sorted (rows : List Sprint) :
    List.Sorted createdLe (ensureSprintCodes rows) := by
  have hsorted : List.Sorted createdLe (rows.insertionSort createdLe) :=
    List.sorted_insertionSort createdLe rows
  have hfst := normalizeWalk_map_fst (rows.insertionSort createdLe) ∅ 0
  rw [← hfst] at hsorted
  unfold ensureSprintCodes List.Sorted
  rw [List.pairwise_map]
  unfold List.Sorted at hsorted
  rw [List.pairwise_map] at hsorted
  exact hsorted.imp fun {a b} h => h

/-- Claim C2: after one normalization pass all sprint codes are canonical
`sprint-<N>` strings and pairwise distinct, and a second pass changes
nothing. -/
theorem sprint_code_normalization_idempotent (rows : List Sprint) :
    (∀ s ∈ ensureSprintCodes rows, ∃ n, s.code = formatSprintCode n) ∧
      ((ensureSprintCodes rows).map (fun s => s.code)).Nodup ∧
      ensureSprintCodes (ensureSprintCodes rows) = ensureSprintCodes rows := by
  refine ⟨?_, ?_, ?_⟩
  · intro s hs
    obtain ⟨p, _, hps⟩ := List.mem_map.mp hs
    exact ⟨p.2, by rw [← hps]; rfl⟩
  · unfold ensureSprintCodes
    rw [List.map_map]
    have hmap : ((fun s => s.code) ∘ applyCode)
        = (fun p : Sprint × ℕ => formatSprintCode p.2) := rfl
    rw [hmap]
    have hnd := (normalizeWalk_not_mem_and_nodup (rows.insertionSort createdLe) ∅ 0).2
    have : (fun p : Sprint × ℕ => formatSprintCode p.2)
        = formatSprintCode ∘ Prod.snd := rfl
    rw [this, ← List.map_map]
    exact hnd.map fun _ _ h => formatSprintCode_inj h
  · have hins : (ensureSprintCodes rows).insertionSort createdLe = ensureSprintCodes rows :=
      List.Sorted.insertionSort_eq (ensureSprintCodes_sorted rows)
    unfold ensureSprintCodes at hins ⊢
    rw [hins, normalizeWalk_roundtrip, List.map_map]
    rfl

/-- Claim C1 fails on the code: for creation-ordered codes `sprint-2`,
`sprint-2`, `sprint-5`, the duplicate is renumbered during the scan, when the
running highest is still 2, so it becomes `sprint-3` and not `sprint-6`. -/
theorem normalization_duplicate_counterexample :
    (ensureSprintCodes
        [⟨"s1", "sprint-2", "alpha", "2024-01-01", none, "2024-01-01T00:00:00Z"⟩,
          ⟨"s2", "sprint-2", "beta", "2024-01-15", none, "2024-01-02T00:00:00Z"⟩,
          ⟨"s3", "sprint-5", "gamma", "2024-02-01", none, "2024-01-03T00:00:00Z"⟩]).map
        (fun s => s.code) ≠ ["sprint-2", "sprint-6", "sprint-5"] := by
  decide

/-- Claim C1 as amended: the first sprint keeps `sprint-2`, the third keeps
`sprint-5`, and the duplicate second sprint is renumbered to `sprint-3`, the
smallest unused integer above the running highest at the moment the duplicate
is scanned; the three resulting codes are distinct. -/
theorem normalization_duplicate_renumbered :
    (ensureSprintCodes
        [⟨"s1", "sprint-2", "alpha", "2024-01-01", none, "2024-01-01T00:00:00Z"⟩,
          ⟨"s2", "sprint-2", "beta", "2024-01-15", none, "2024-01-02T00:00:00Z"⟩,
          ⟨"s3", "sprint-5", "gamma", "2024-02-01", none, "2024-01-03T00:00:00Z"⟩]).map
        (fun s => s.code) = ["sprint-2", "sprint-3", "sprint-5"] ∧
      (["sprint-2", "sprint-3", "sprint-5"] : List String).Nodup := by
  exact ⟨by decide, by decide⟩

/-! ### Active-sprint selection (`pick_active_sprint_id`, main.rs lines 133-155) -/

/-- The window test of `pick_active_sprint_id`: `start_date <= today` and
`end_date` absent or `>= today` (all date strings compared lexicographically,
as the source does). -/
def sprintWindowOk (s : Sprint) (today : String) : Bool :=
  strLe s.start_date today &&
    (match s.end_date with
     | some e => strLe today e
     | none => true)

/-- Descending creation order: the source sorts with
`sort_by(|left, right| right.created_at.cmp(&left.created_at))`, so `a` may
stay before `b` exactly when `b.created_at <= a.created_at`. -/
def createdGe (a b : Sprint) : Prop := strLe b.created_at a.created_at = true

instance : DecidableRel createdGe := fun a b =>
  inferInstanceAs (Decidable (strLe b.created_at a.created_at = true))

instance : IsTotal Sprint createdGe := ⟨fun a b => strLe_total b.created_at a.created_at⟩

instance : IsTrans Sprint createdGe := ⟨fun _ _ _ h1 h2 => strLe_trans h2 h1⟩

/-- `pick_active_sprint_id` from main.rs: sort newest first, return the first
sprint whose window contains today, else the newest sprint. The source reads
today's date from the local clock; it is passed here as the `today` parameter,
which is the only impure input. -/
def pick_active_sprint_id (sprints : List Sprint) (today : String) : Option String :=
  if sprints.isEmpty then none
  else
    match (sprints.insertionSort createdGe).find? (fun s => sprintWindowOk s today) with
    | some ongoing => some ongoing.id
    | none => (sprints.insertionSort createdGe).head?.map (fun s => s.id)

lemma find?_sorted_created_max {p : Sprint → Bool} :
    ∀ {l : List Sprint}, List.Sorted createdGe l → ∀ {u : Sprint}, l.find? p = some u →
      ∀ v ∈ l, p v = true → strLe v.created_at u.created_at = true := by
  intro l
  induction l with
  | nil => intro _ u hfind; exact absurd hfind (by simp)
  | cons x xs ih =>
    intro hsort u hfind v hv hpv
    cases hpx : p x with
    | true =>
      rw [List.find?_cons_of_pos _ hpx] at hfind
      have hux : u = x := by injection hfind with h; exact h.symm
      rcases List.mem_cons.mp hv with hvx | hvxs
      · rw [hvx, hux]; exact strLe_refl _
      · rw [hux]
        exact List.rel_of_sorted_cons hsort v hvxs
    | false =>
      rw [List.find?_cons_of_neg _ (by simp [hpx])] at hfind
      rcases List.mem_cons.mp hv with hvx | hvxs
      · rw [hvx] at hpv; rw [hpv] at hpx; exact absurd hpx (by simp)
      · exact ih hsort.of_cons hfind v hvxs hpv

/-- Claim C3: the selector returns `none` exactly on the empty list; when some
sprint's window contains today it returns a window-satisfying sprint whose
`created_at` is maximal among window-satisfying sprints; when no window
matches it returns a sprint whose `created_at` is maximal overall. -/
theorem pick_active_sprint_spec (sprints : List Sprint) (today : String) :
    (pick_active_sprint_id sprints today = none ↔ sprints = []) ∧
      ((∃ u ∈ sprints, sprintWindowOk u today = true) →
        ∃ u ∈ sprints, sprintWindowOk u today = true ∧
          pick_active_sprint_id sprints today = some u.id ∧
          ∀ v ∈ sprints, sprintWindowOk v today = true →
            strLe v.created_at u.created_at = true) ∧
      ((∀ v ∈ sprints, sprintWindowOk v today = false) → sprints ≠ [] →
        ∃ u ∈ sprints, pick_active_sprint_id sprints today = some u.id ∧
          ∀ v ∈ sprints, strLe v.created_at u.created_at = true) := by
  have hperm := List.perm_insertionSort createdGe sprints
  have hsort := List.sorted_insertionSort createdGe sprints
  refine ⟨?_, ?_, ?_⟩
  · constructor
    · intro hnone
      by_contra hne
      have hempty : sprints.isEmpty = false := by
        cases sprints with
        | nil => exact absurd rfl hne
        | cons a l => rfl
      unfold pick_active_sprint_id at hnone
      rw [if_neg (by rw [hempty]; exact Bool.noConfusion)] at hnone
      cases hfind : (sprints.insertionSort createdGe).find? (fun s => sprintWindowOk s today) with
      | some u => rw [hfind] at hnone; exact Option.noConfusion hnone
      | none =>
        rw [hfind] at hnone
        have hne2 : sprints.insertionSort createdGe ≠ [] := by
          intro hnil
          rw [hnil] at hperm
          exact hne (List.Perm.eq_nil hperm.symm)
        obtain ⟨a, t, hat⟩ := List.exists_cons_of_ne_nil hne2
        rw [hat] at hnone
        exact Option.noConfusion hnone
    · intro h
      rw [h]
      rfl
  · intro ⟨w, hwmem, hwok⟩
    have hne : sprints ≠ [] := by
      intro hnil; rw [hnil] at hwmem; exact List.not_mem_nil w hwmem
    have hempty : sprints.isEmpty = false := by
      cases sprints with
      | nil => exact absurd rfl hne
      | cons a l => rfl
    have hfind : (sprints.insertionSort createdGe).find?
        (fun s => sprintWindowOk s today) ≠ none := by
      intro hnone
      have := List.find?_eq_none.mp hnone w (hperm.mem_iff.mpr hwmem)
      rw [hwok] at this
      exact this rfl
    obtain ⟨u, hu⟩ := Option.ne_none_iff_exists'.mp hfind
    have hpu := List.find?_some hu
    refine ⟨u, hperm.mem_iff.mp (List.mem_of_find?_eq_some hu), hpu, ?_, ?_⟩
    · unfold pick_active_sprint_id
      rw [if_neg (by rw [hempty]; exact Bool.noConfusion), hu]
    · intro v hv hpv
      exact find?_sorted_created_max hsort hu v (hperm.mem_iff.mpr hv) hpv
  · intro hall hne
    have hempty : sprints.isEmpty = false := by
      cases sprints with
      | nil => exact absurd rfl hne
      | cons a l => rfl
    have hfind : (sprints.insertionSort createdGe).find?
        (fun s => sprintWindowOk s today) = none := by
      rw [List.find?_eq_none]
      intro x hx
      rw [hall x (hperm.mem_iff.mp hx)]
      exact Bool.noConfusion
    have hne2 : sprints.insertionSort createdGe ≠ [] := by
      intro hnil
      rw [hnil] at hperm
      exact hne (List.Perm.eq_nil hperm.symm)
    obtain ⟨a, t, hat⟩ := List.exists_cons_of_ne_nil hne2
    refine ⟨a, hperm.mem_iff.mp (by rw [hat]; exact List.mem_cons_self a t), ?_, ?_⟩
    · unfold pick_active_sprint_id
      rw [if_neg (by rw [hempty]; exact Bool.noConfusion), hfind, hat]
      rfl
    · intro v hv
      have hv2 := hperm.mem_iff.mpr hv
      rw [hat] at hv2
      rcases List.mem_cons.mp hv2 with hva | hvt
      · rw [hva]; exact strLe_refl _
      · rw [hat] at hsort
        exact List.rel_of_sorted_cons hsort v hvt

/-- Witness for C3 at the spec's own example: two sprints, the second
open-ended and in-window on 2024-01-20, so the selector must pick a
window-satisfying sprint of maximal creation time. -/
theorem pick_active_sprint_spec_witness :
    ∃ u ∈ [Sprint.mk "sp1" "sprint-1" "one" "2024-01-01" (some "2024-01-14")
            "2024-01-01T08:00:00Z",
          Sprint.mk "sp2" "sprint-2" "two" "2024-01-15" none "2024-01-15T08:00:00Z"],
      sprintWindowOk u "2024-01-20" = true ∧
        pick_active_sprint_id
            [Sprint.mk "sp1" "sprint-1" "one" "2024-01-01" (some "2024-01-14")
              "2024-01-01T08:00:00Z",
              Sprint.mk "sp2" "sprint-2" "two" "2024-01-15" none "2024-01-15T08:00:00Z"]
            "2024-01-20" = some u.id ∧
        ∀ v ∈ [Sprint.mk "sp1" "sprint-1" "one" "2024-01-01" (some "2024-01-14")
              "2024-01-01T08:00:00Z",
            Sprint.mk "sp2" "sprint-2" "two" "2024-01-15" none "2024-01-15T08:00:00Z"],
          sprintWindowOk v "2024-01-20" = true →
            strLe v.created_at u.created_at = true :=
  (pick_active_sprint_spec _ "2024-01-20").2.1 (by decide)

/-! ### `slugify` (main.rs lines 188-205; devlog-cli.rs lines 896-913 is an
identical copy) -/

/-- The accumulation loop of `slugify`: lowercased ASCII alphanumerics are
kept, whitespace/hyphen/underscore becomes a single `-` unless the output
already ends with one, everything else is dropped. -/
def slugifyAux : List Char → List Char → List Char
  | out, [] => out
  | out, c :: rest =>
    if isAsciiAlnum c = true then slugifyAux (out ++ [toAsciiLower c]) rest
    else
      if (isAsciiWs c = true ∨ c = '-' ∨ c = '_') ∧ out.getLast? ≠ some '-' then
        slugifyAux (out ++ ['-']) rest
      else slugifyAux out rest

def slugifyCore (cs : List Char) : List Char := slugifyAux [] cs

/-- `out.trim_matches('-')`: drop hyphens from both ends. -/
def trimHyphens (cs : List Char) : List Char :=
  ((cs.dropWhile (fun c => c = '-')).reverse.dropWhile (fun c => c = '-')).reverse

/-- `slugify` from main.rs / devlog-cli.rs. -/
def slugify (s : String) : String :=
  if trimHyphens (slugifyCore s.data) = [] then "value"
  else ⟨trimHyphens (slugifyCore s.data)⟩

/-- A character allowed in a slug: ASCII digit, lowercase ASCII letter, or
hyphen. -/
def isSlugChar (c : Char) : Bool :=
  (48 ≤ charVal c && charVal c ≤ 57) || (97 ≤ charVal c && charVal c ≤ 122) ||
    charVal c = 45

/-- Adjacent characters are not both hyphens. -/
def noDoubleHyphen (a b : Char) : Prop := ¬(a = '-' ∧ b = '-')

instance : DecidableRel noDoubleHyphen := fun a b =>
  inferInstanceAs (Decidable (¬(a = '-' ∧ b = '-')))

lemma charVal_ofNat {n : ℕ} (h : n < 55296) : charVal (Char.ofNat n) = n := by
  have hv : Nat.isValidChar n := Or.inl h
  unfold charVal
  rw [Char.ofNat, dif_pos hv]
  show (Char.ofNatAux n hv).toNat = n
  rw [Char.ofNatAux]
  show (UInt32.ofNatCore n _).toNat = n
  rfl

lemma toAsciiLower_alnum {c : Char} (h : isAsciiAlnum c = true) :
    isSlugChar (toAsciiLower c) = true ∧ toAsciiLower c ≠ '-' := by
  simp only [isAsciiAlnum, Bool.or_eq_true, Bool.and_eq_true, decide_eq_true_eq] at h
  have hval : (48 ≤ charVal (toAsciiLower c) ∧ charVal (toAsciiLower c) ≤ 57) ∨
      (97 ≤ charVal (toAsciiLower c) ∧ charVal (toAsciiLower c) ≤ 122) := by
    unfold toAsciiLower
    by_cases hu : 65 ≤ charVal c ∧ charVal c ≤ 90
    · rw [if_pos hu, charVal_ofNat (by omega)]
      omega
    · rw [if_neg hu]
      omega
  constructor
  · simp only [isSlugChar, Bool.or_eq_true, Bool.and_eq_true, decide_eq_true_eq]
    omega
  · intro he
    rw [he] at hval
    simp only [show charVal '-' = 45 from rfl] at hval
    omega

lemma slugifyAux_inv :
    ∀ (input out : List Char),
      (∀ c ∈ out, isSlugChar c = true) → List.Chain' noDoubleHyphen out →
        (∀ c ∈ slugifyAux out input, isSlugChar c = true) ∧
          List.Chain' noDoubleHyphen (slugifyAux out input) := by
  intro input
  induction input with
  | nil => intro out h1 h2; exact ⟨h1, h2⟩
  | cons c rest ih =>
    intro out h1 h2
    by_cases ha : isAsciiAlnum c = true
    · rw [slugifyAux, if_pos ha]
      apply ih
      · intro x hx
        rcases List.mem_append.mp hx with hx | hx
        · exact h1 x hx
        · rw [List.mem_singleton.mp hx]
          exact (toAsciiLower_alnum ha).1
      · rw [List.chain'_append]
        refine ⟨h2, List.chain'_singleton _, ?_⟩
        intro x _ y hy
        rw [List.head?_cons, Option.mem_some_iff] at hy
        intro hcon
        rw [← hy] at hcon
        exact (toAsciiLower_alnum ha).2 hcon.2
    · rw [slugifyAux, if_neg ha]
      by_cases hb : (isAsciiWs c = true ∨ c = '-' ∨ c = '_') ∧ out.getLast? ≠ some '-'
      · rw [if_pos hb]
        apply ih
        · intro x hx
          rcases List.mem_append.mp hx with hx | hx
          · exact h1 x hx
          · rw [List.mem_singleton.mp hx]; decide
        · rw [List.chain'_append]
          refine ⟨h2, List.chain'_singleton _, ?_⟩
          intro x hx y hy
          rw [List.head?_cons, Option.mem_some_iff] at hy
          intro hcon
          apply hb.2
          rw [Option.mem_def] at hx
          rw [hx, hcon.1]
      · rw [if_neg hb]
        exact ih out h1 h2

lemma slugifyAux_no_alnum :
    ∀ (input out : List Char), (∀ c ∈ input, isAsciiAlnum c = false) →
      (out = [] ∨ out = ['-']) →
      (slugifyAux out input = [] ∨ slugifyAux out input = ['-']) := by
  intro input
  induction input with
  | nil => intro out _ hout; exact hout
  | cons c rest ih =>
    intro out hno hout
    have ha : ¬ isAsciiAlnum c = true := by
      rw [hno c (List.mem_cons_self c rest)]
      exact Bool.noConfusion
    rw [slugifyAux, if_neg ha]
    by_cases hb : (isAsciiWs c = true ∨ c = '-' ∨ c = '_') ∧ out.getLast? ≠ some '-'
    · rw [if_pos hb]
      rcases hout with hout | hout
      · rw [hout]
        exact ih ['-'] (fun x hx => hno x (List.mem_cons_of_mem c hx)) (Or.inr rfl)
      · exact absurd (by rw [hout]; rfl) hb.2
    · rw [if_neg hb]
      exact ih out (fun x hx => hno x (List.mem_cons_of_mem c hx)) hout

lemma head?_dropWhile_not {p : Char → Bool} :
    ∀ (l : List Char) {a : Char}, (l.dropWhile p).head? = some a → p a = false := by
  intro l
  induction l with
  | nil => intro a h; exact absurd h (by simp)
  | cons x xs ih =>
    intro a h
    rw [List.dropWhile_cons] at h
    by_cases hp : p x = true
    · rw [if_pos hp] at h
      exact ih h
    · rw [if_neg hp] at h
      rw [List.head?_cons, Option.some.injEq] at h
      rw [← h]
      exact Bool.not_eq_true _ ▸ hp

lemma getLast?_dropWhile {p : Char → Bool} :
    ∀ (l : List Char), l.dropWhile p ≠ [] → (l.dropWhile p).getLast? = l.getLast? := by
  intro l
  induction l with
  | nil => intro h; exact absurd rfl h
  | cons x xs ih =>
    intro h
    rw [List.dropWhile_cons] at h ⊢
    by_cases hp : p x = true
    · rw [if_pos hp] at h ⊢
      cases xs with
      | nil => exact absurd rfl h
      | cons y ys =>
        rw [ih h, List.getLast?_cons_cons]
    · rw [if_neg hp]

lemma noDoubleHyphen_flip {a b : Char} (h : noDoubleHyphen a b) : noDoubleHyphen b a :=
  fun hc => h ⟨hc.2, hc.1⟩

lemma noDoubleHyphen_of_left {a b : Char} (h : a ≠ '-') : noDoubleHyphen a b :=
  fun hc => h hc.1

lemma trimHyphens_spec (cs : List Char) :
    (trimHyphens cs).head? ≠ some '-' ∧ (trimHyphens cs).getLast? ≠ some '-' ∧
      (∀ c ∈ trimHyphens cs, c ∈ cs) ∧
      (List.Chain' noDoubleHyphen cs → List.Chain' noDoubleHyphen (trimHyphens cs)) := by
  have hA := List.dropWhile_suffix (l := cs) (fun c => decide (c = '-'))
  have hB := List.dropWhile_suffix
    (l := (cs.dropWhile (fun c => decide (c = '-'))).reverse) (fun c => decide (c = '-'))
  refine ⟨?_, ?_, ?_, ?_⟩
  · intro h
    unfold trimHyphens at h
    rw [List.head?_reverse] at h
    by_cases hne : (cs.dropWhile (fun c => decide (c = '-'))).reverse.dropWhile
        (fun c => decide (c = '-')) = []
    · rw [hne] at h
      exact absurd h (by simp)
    · rw [getLast?_dropWhile _ hne, List.getLast?_reverse] at h
      have := head?_dropWhile_not _ h
      simp at this
  · intro h
    unfold trimHyphens at h
    rw [List.getLast?_reverse] at h
    have := head?_dropWhile_not _ h
    simp at this
  · intro c hc
    unfold trimHyphens at hc
    rw [List.mem_reverse] at hc
    have hc2 := hB.mem hc
    rw [List.mem_reverse] at hc2
    exact hA.mem hc2
  · intro hch
    unfold trimHyphens
    rw [List.chain'_reverse]
    apply List.Chain'.imp (fun a b h => noDoubleHyphen_flip h)
    apply List.Chain'.suffix _ hB
    rw [List.chain'_reverse]
    apply List.Chain'.imp (fun a b h => noDoubleHyphen_flip h)
    exact List.Chain'.suffix hch hA

/-- Claim C10: for every input, `slugify` returns a non-empty string of ASCII
digits, lowercase ASCII letters and hyphens, with no two adjacent hyphens and
no leading or trailing hyphen; inputs with no ASCII alphanumeric character
yield the literal `"value"`. -/
theorem slugify_wellformed (s : String) :
    (slugify s).data ≠ [] ∧
      (∀ c ∈ (slugify s).data, isSlugChar c = true) ∧
      List.Chain' noDoubleHyphen (slugify s).data ∧
      (slugify s).data.head? ≠ some '-' ∧
      (slugify s).data.getLast? ≠ some '-' ∧
      ((∀ c ∈ s.data, isAsciiAlnum c = false) → slugify s = "value") := by
  obtain ⟨hchars, hchain⟩ := slugifyAux_inv s.data [] (by simp) List.chain'_nil
  obtain ⟨hhead, hlast, hmem, hchainT⟩ := trimHyphens_spec (slugifyCore s.data)
  unfold slugify
  by_cases h : trimHyphens (slugifyCore s.data) = []
  · rw [if_pos h]
    refine ⟨by decide, by decide, ?_, by decide, by decide, fun _ => rfl⟩
    rw [show "value".data = ['v', 'a', 'l', 'u', 'e'] from rfl]
    refine List.chain'_cons.mpr ⟨noDoubleHyphen_of_left (by decide), ?_⟩
    refine List.chain'_cons.mpr ⟨noDoubleHyphen_of_left (by decide), ?_⟩
    refine List.chain'_cons.mpr ⟨noDoubleHyphen_of_left (by decide), ?_⟩
    refine List.chain'_cons.mpr ⟨noDoubleHyphen_of_left (by decide), ?_⟩
    exact List.chain'_singleton _
  · rw [if_neg h]
    refine ⟨h, ?_, hchainT hchain, hhead, hlast, ?_⟩
    · intro c hc
      exact hchars c (hmem c hc)
    · intro hno
      exfalso
      apply h
      rcases slugifyAux_no_alnum s.data [] hno (Or.inl rfl) with hcore | hcore
      · unfold slugifyCore at *
        rw [hcore]
        rfl
      · unfold slugifyCore at *
        rw [hcore]
        decide

/-- Witness for C10: an input with no alphanumeric character maps to `value`,
and an ordinary mixed input produces a non-empty slug. -/
theorem slugify_wellformed_witness :
    slugify "@@ !!" = "value" ∧ (slugify "A  b--C_9").data ≠ [] :=
  ⟨(slugify_wellformed "@@ !!").2.2.2.2.2 (by decide),
    (slugify_wellformed "A  b--C_9").1⟩

/-! ### Data model: categories, entries and the store -/

structure Category where
  id : String
  name : String
  created_at : String
deriving DecidableEq, Repr

structure DailyEntry where
  id : String
  sprint_id : String
  date : String
  category_id : String
  title : String
  details : Option String
  created_at : String
deriving DecidableEq, Repr

/-- The three SQLite tables. List order models SQLite rowid (insertion)
order; `id` columns are primary keys, so well-formed stores have `Nodup` id
lists. -/
structure Store where
  categories : List Category
  sprints : List Sprint
  entries : List DailyEntry
deriving DecidableEq, Repr

def catCreatedLe (a b : Category) : Prop := strLe a.created_at b.created_at = true

instance : DecidableRel catCreatedLe := fun a b =>
  inferInstanceAs (Decidable (strLe a.created_at b.created_at = true))

instance : IsTotal Category catCreatedLe :=
  ⟨fun a b => strLe_total a.created_at b.created_at⟩

instance : IsTrans Category catCreatedLe := ⟨fun _ _ _ h1 h2 => strLe_trans h1 h2⟩

/-- SQLite's `lower()`, which folds ASCII letters only. -/
def lowerS (s : String) : String := ⟨s.data.map toAsciiLower⟩

/-- `list_categories_db`: `SELECT ... FROM categories ORDER BY created_at`. -/
def list_categories_db (cats : List Category) : List Category :=
  cats.insertionSort catCreatedLe

/-! ### `create_category` (main.rs lines 813-837) and
`category_name_exists` (main.rs lines 643-671) -/

/-- `category_name_exists`: `SELECT id FROM categories WHERE lower(name) =
lower(?1) [AND id <> ?2] LIMIT 1` is some row. -/
def category_name_exists (cats : List Category) (name : String)
    (excluding : Option String) : Bool :=
  match excluding with
  | some ex => cats.any (fun c => lowerS c.name = lowerS name ∧ c.id ≠ ex)
  | none => cats.any (fun c => lowerS c.name = lowerS name)

/-- `create_category`. The clock readings (`timestamp_millis` for the id
suffix and `now()` for `created_at`) are passed as parameters; on success the
new row is appended to the table and returned. -/
def create_category (cats : List Category) (inputName millis createdAt : String) :
    Except String (Category × List Category) :=
  if trimS inputName = "" then Except.error "category name is required"
  else if category_name_exists cats (trimS inputName) none then
    Except.error "category name already exists"
  else
    let category : Category :=
      ⟨"cat-" ++ slugify (trimS inputName) ++ "-" ++ millis, trimS inputName, createdAt⟩
    Except.ok (category, cats ++ [category])

/-! ### `delete_category` (main.rs lines 884-957) -/

structure DeleteCategoryInput where
  id : String
  replacement_category_id : Option String

/-- Environment-induced failure of a single SQL statement. `delete_category`
runs its `UPDATE entries` and `DELETE FROM categories` as two separate
auto-commit statements with no enclosing transaction, so a statement that
fails leaves the effects of earlier statements committed. -/
structure DbFaults where
  failReassign : Bool
  failDeleteRow : Bool
deriving DecidableEq, Repr

def noFaults : DbFaults := ⟨false, false⟩

/-- The explicitly supplied replacement id, trimmed, blank treated as absent. -/
def replacementFromInput (input : DeleteCategoryInput) : Option String :=
  match input.replacement_category_id with
  | some v => if trimS v = "" then none else some (trimS v)
  | none => none

/-- `SELECT id FROM categories WHERE id <> ?1 ORDER BY created_at LIMIT 1`.
SQLite leaves the order of `created_at` ties unspecified; the stable sort
resolves ties by rowid order, SQLite's usual behaviour. -/
def oldestOtherCategory (cats : List Category) (categoryId : String) : Option String :=
  (((cats.filter (fun c => c.id ≠ categoryId)).insertionSort catCreatedLe).head?).map
    (fun c => c.id)

/-- The final `DELETE FROM categories WHERE id = ?` plus the
`affected == 0` check. -/
def removeCategoryRow (store : Store) (categoryId : String) (faults : DbFaults) :
    Except String Unit × Store :=
  if faults.failDeleteRow then (Except.error "failed to delete category", store)
  else if store.categories.length
      = (store.categories.filter (fun c => c.id ≠ categoryId)).length then
    (Except.error "category not found",
      { store with categories := store.categories.filter (fun c => c.id ≠ categoryId) })
  else
    (Except.ok (),
      { store with categories := store.categories.filter (fun c => c.id ≠ categoryId) })

/-- Effect of `UPDATE entries SET category_id = ?1 WHERE category_id = ?2`. -/
def reassignEntries (entries : List DailyEntry) (categoryId replacementId : String) :
    List DailyEntry :=
  entries.map fun e =>
    if e.category_id = categoryId then { e with category_id := replacementId } else e

/-- Replacement validation, the `UPDATE entries SET category_id` statement and
the row delete. The update commits on its own: a later failure does not undo
it. -/
def reassignAndRemove (store : Store) (categoryId replacementId : String)
    (faults : DbFaults) : Except String Unit × Store :=
  if replacementId = categoryId then
    (Except.error "replacement category must be different", store)
  else if store.categories.any (fun c => c.id = replacementId) = false then
    (Except.error "replacement category not found", store)
  else if faults.failReassign then
    (Except.error "failed to reassign category entries", store)
  else
    removeCategoryRow
      { store with entries := reassignEntries store.entries categoryId replacementId }
      categoryId faults

/-- The replacement id used when entries must be reassigned: the explicitly
supplied one, else the oldest other category. -/
def resolvedReplacement (store : Store) (input : DeleteCategoryInput) : Option String :=
  match replacementFromInput input with
  | some v => some v
  | none => oldestOtherCategory store.categories (trimS input.id)

/-- `delete_category` from main.rs, over the store with per-statement fault
injection (pass `noFaults` for the failure-free run). -/
def delete_category (store : Store) (input : DeleteCategoryInput) (faults : DbFaults) :
    Except String Unit × Store :=
  if trimS input.id = "" then (Except.error "category id is required", store)
  else if store.categories.length ≤ 1 then
    (Except.error "at least one category is required", store)
  else if store.categories.any (fun c => c.id = trimS input.id) = false then
    (Except.error "category not found", store)
  else if 0 < (store.entries.filter (fun e => e.category_id = trimS input.id)).length then
    match resolvedReplacement store input with
    | some replacementId => reassignAndRemove store (trimS input.id) replacementId faults
    | none => (Except.error "no replacement category available", store)
  else removeCategoryRow store (trimS input.id) faults

/-! ### Claim C6: `create_category` -/

/-- Claim C6: `create_category` rejects blank names with the validation
message, rejects any ASCII-case-insensitive duplicate with the conflict
message, and otherwise appends the new category, which then appears exactly
once in `list_categories_db`. -/
theorem create_category_spec (cats : List Category) (inputName millis createdAt : String) :
    (trimS inputName = "" →
      create_category cats inputName millis createdAt =
        Except.error "category name is required") ∧
      ((∃ c ∈ cats, lowerS c.name = lowerS (trimS inputName)) → trimS inputName ≠ "" →
        create_category cats inputName millis createdAt =
          Except.error "category name already exists") ∧
      (trimS inputName ≠ "" →
        (∀ c ∈ cats, lowerS c.name ≠ lowerS (trimS inputName)) →
        ∃ cat,
          create_category cats inputName millis createdAt =
              Except.ok (cat, cats ++ [cat]) ∧
            cat.name = trimS inputName ∧
            (cats ++ [cat]).filter
                (fun c => lowerS c.name = lowerS (trimS inputName)) = [cat] ∧
            (list_categories_db (cats ++ [cat])).countP
                (fun c => lowerS c.name = lowerS (trimS inputName)) = 1) := by
  refine ⟨?_, ?_, ?_⟩
  · intro h
    unfold create_category
    rw [if_pos h]
  · intro ⟨c, hc, hname⟩ hne
    have hex : category_name_exists cats (trimS inputName) none = true := by
      unfold category_name_exists
      rw [List.any_eq_true]
      exact ⟨c, hc, decide_eq_true hname⟩
    unfold create_category
    rw [if_neg hne, if_pos hex]
  · intro hne hall
    have hex : ¬ category_name_exists cats (trimS inputName) none = true := by
      unfold category_name_exists
      rw [List.any_eq_true]
      rintro ⟨c, hc, hdec⟩
      rw [decide_eq_true_eq] at hdec
      exact hall c hc hdec
    have hfilter : cats.filter
        (fun c => lowerS c.name = lowerS (trimS inputName)) = [] := by
      rw [List.filter_eq_nil_iff]
      intro c hc
      rw [Bool.not_eq_true, decide_eq_false_iff_not]
      exact hall c hc
    refine ⟨⟨"cat-" ++ slugify (trimS inputName) ++ "-" ++ millis,
      trimS inputName, createdAt⟩, ?_, rfl, ?_, ?_⟩
    · unfold create_category
      rw [if_neg hne, if_neg hex]
    · rw [List.filter_append, hfilter]
      simp [List.filter]
    · unfold list_categories_db
      rw [(List.perm_insertionSort catCreatedLe (cats ++ _)).countP_eq]
      rw [List.countP_eq_length_filter, List.filter_append, hfilter]
      simp [List.filter]

/-- Witness for C6: creating ` Notes ` next to `Tasks` succeeds with the new
row appended; creating `nOTES` next to `Notes` hits the conflict error. -/
theorem create_category_spec_witness :
    (∃ cat,
        create_category [⟨"tasks", "Tasks", "2024-01-01T00:00:00Z"⟩] "  Notes " "17"
            "2024-02-01T00:00:00Z" =
          Except.ok (cat, [⟨"tasks", "Tasks", "2024-01-01T00:00:00Z"⟩] ++ [cat])) ∧
      create_category [⟨"notes", "Notes", "2024-01-01T00:00:00Z"⟩] "nOTES" "18"
          "2024-02-02T00:00:00Z" =
        Except.error "category name already exists" := by
  constructor
  · obtain ⟨cat, hok, -, -, -⟩ :=
      (create_category_spec [⟨"tasks", "Tasks", "2024-01-01T00:00:00Z"⟩] "  Notes " "17"
        "2024-02-01T00:00:00Z").2.2 (by decide) (by decide)
    exact ⟨cat, hok⟩
  · exact (create_category_spec [⟨"notes", "Notes", "2024-01-01T00:00:00Z"⟩] "nOTES" "18"
      "2024-02-02T00:00:00Z").2.1 (by decide) (by decide)

/-! ### Claims C5 and C9: `delete_category` -/

instance {ε α : Type} [DecidableEq ε] [DecidableEq α] : DecidableEq (Except ε α) :=
  fun a b =>
    match a, b with
    | Except.ok x, Except.ok y =>
      if h : x = y then isTrue (congrArg Except.ok h)
      else isFalse fun hc => h (Except.ok.inj hc)
    | Except.error x, Except.error y =>
      if h : x = y then isTrue (congrArg Except.error h)
      else isFalse fun hc => h (Except.error.inj hc)
    | Except.ok _, Except.error _ => isFalse fun hc => Except.noConfusion hc
    | Except.error _, Except.ok _ => isFalse fun hc => Except.noConfusion hc

lemma length_filter_lt {α : Type} {p : α → Bool} {l : List α} {x : α}
    (hx : x ∈ l) (hpx : p x = false) : (l.filter p).length < l.length := by
  induction l with
  | nil => exact absurd hx (List.not_mem_nil x)
  | cons y ys ih =>
    rw [List.filter_cons]
    rcases List.mem_cons.mp hx with hxy | hxy
    · rw [← hxy, hpx]
      have := List.length_filter_le p ys
      simp only [List.length_cons]
      rw [if_neg (by simp)]
      omega
    · by_cases hpy : p y = true
      · rw [if_pos hpy]
        have := ih hxy
        simp only [List.length_cons]
        omega
      · rw [if_neg hpy]
        have := ih hxy
        simp only [List.length_cons]
        omega

lemma reassignEntries_count {cid r : String} (hne : r ≠ cid) :
    ∀ entries : List DailyEntry,
      ((reassignEntries entries cid r).filter (fun e => e.category_id = r)).length =
        (entries.filter (fun e => e.category_id = r)).length +
          (entries.filter (fun e => e.category_id = cid)).length := by
  intro entries
  induction entries with
  | nil => rfl
  | cons e es ih =>
    simp only [reassignEntries, List.map_cons] at ih ⊢
    by_cases hc : e.category_id = cid
    · have h2 : ¬ (e.category_id = r) := by
        rw [hc]
        exact fun hcon => hne hcon.symm
      have h3 : cid ≠ r := fun h => hne h.symm
      rw [if_pos hc]
      simp [List.filter_cons, hc, h2, h3]
      omega
    · rw [if_neg hc]
      by_cases hrq : e.category_id = r
      · simp [List.filter_cons, hrq, hc, hne]
        omega
      · simp [List.filter_cons, hrq, hc]
        exact ih

lemma reassignEntries_none_left {entries : List DailyEntry} {cid r : String} (hne : r ≠ cid) :
    (reassignEntries entries cid r).filter (fun e => e.category_id = cid) = [] := by
  rw [List.filter_eq_nil_iff]
  intro e he
  obtain ⟨e0, _, he0⟩ := List.mem_map.mp he
  rw [Bool.not_eq_true, decide_eq_false_iff_not]
  by_cases hc : e0.category_id = cid
  · rw [if_pos hc] at he0
    rw [← he0]
    exact fun hcon => hne hcon
  · rw [if_neg hc] at he0
    rw [← he0]
    exact hc

lemma reassignEntries_of_unused {cid r : String} :
    ∀ {entries : List DailyEntry}, (∀ e ∈ entries, e.category_id ≠ cid) →
      reassignEntries entries cid r = entries := by
  intro entries
  induction entries with
  | nil => intro _; rfl
  | cons e es ih =>
    intro h
    unfold reassignEntries at ih ⊢
    simp only [List.map_cons]
    rw [if_neg (h e (List.mem_cons_self e es))]
    rw [ih fun x hx => h x (List.mem_cons_of_mem e hx)]

lemma removeCategoryRow_ok {store : Store} {cid : String}
    (hcat : ∃ c ∈ store.categories, c.id = cid) :
    removeCategoryRow store cid noFaults =
      (Except.ok (),
        { store with categories := store.categories.filter (fun c => c.id ≠ cid) }) := by
  obtain ⟨cC, hcC, hcCid⟩ := hcat
  unfold removeCategoryRow
  rw [if_neg (show ¬ (noFaults.failDeleteRow = true) by decide)]
  have hlt : (store.categories.filter (fun c => c.id ≠ cid)).length
      < store.categories.length :=
    length_filter_lt hcC (by simp [hcCid])
  rw [if_neg (by omega)]

lemma reassignAndRemove_ok {store : Store} {cid r : String} (hne : r ≠ cid)
    (hex : ∃ c ∈ store.categories, c.id = r)
    (hcat : ∃ c ∈ store.categories, c.id = cid) :
    reassignAndRemove store cid r noFaults =
      (Except.ok (),
        { store with
            categories := store.categories.filter (fun c => c.id ≠ cid),
            entries := reassignEntries store.entries cid r }) := by
  obtain ⟨cR, hcR, hcRid⟩ := hex
  have hany : store.categories.any (fun c => c.id = r) = true :=
    List.any_eq_true.mpr ⟨cR, hcR, decide_eq_true hcRid⟩
  unfold reassignAndRemove
  rw [if_neg hne]
  rw [if_neg (by rw [hany]; exact fun h => Bool.noConfusion h)]
  rw [if_neg (show ¬ (noFaults.failReassign = true) by decide)]
  exact removeCategoryRow_ok hcat

lemma reassignAndRemove_fault {store : Store} {cid r : String} (hne : r ≠ cid)
    (hex : ∃ c ∈ store.categories, c.id = r) :
    reassignAndRemove store cid r ⟨false, true⟩ =
      (Except.error "failed to delete category",
        { store with entries := reassignEntries store.entries cid r }) := by
  obtain ⟨cR, hcR, hcRid⟩ := hex
  have hany : store.categories.any (fun c => c.id = r) = true :=
    List.any_eq_true.mpr ⟨cR, hcR, decide_eq_true hcRid⟩
  unfold reassignAndRemove
  rw [if_neg hne]
  rw [if_neg (by rw [hany]; exact fun h => Bool.noConfusion h)]
  rw [if_neg (show ¬ ((⟨false, true⟩ : DbFaults).failReassign = true) by decide)]
  unfold removeCategoryRow
  rw [if_pos (show (⟨false, true⟩ : DbFaults).failDeleteRow = true from rfl)]

/-- Claim C5: deleting the sole remaining category always fails and writes
nothing; deleting an existing category with a resolvable replacement (the
explicit one, or defaulted to the oldest other category, as
`resolvedReplacement` computes) removes the row and reassigns exactly the
referencing entries, leaving the entry count unchanged. -/
theorem delete_category_spec (store : Store) (input : DeleteCategoryInput) :
    (∀ faults, store.categories.length ≤ 1 →
      (∃ msg, (delete_category store input faults).1 = Except.error msg) ∧
        (delete_category store input faults).2 = store) ∧
      (∀ r, resolvedReplacement store input = some r →
        (∃ c ∈ store.categories, c.id = r) → r ≠ trimS input.id →
        trimS input.id ≠ "" → 2 ≤ store.categories.length →
        (∃ c ∈ store.categories, c.id = trimS input.id) →
        delete_category store input noFaults =
            (Except.ok (),
              { store with
                  categories := store.categories.filter (fun c => c.id ≠ trimS input.id),
                  entries := reassignEntries store.entries (trimS input.id) r }) ∧
          (reassignEntries store.entries (trimS input.id) r).length
              = store.entries.length ∧
          ((reassignEntries store.entries (trimS input.id) r).filter
              (fun e => e.category_id = r)).length =
            (store.entries.filter (fun e => e.category_id = r)).length +
              (store.entries.filter (fun e => e.category_id = trimS input.id)).length ∧
          (reassignEntries store.entries (trimS input.id) r).filter
              (fun e => e.category_id = trimS input.id) = []) := by
  constructor
  · intro faults hlen
    unfold delete_category
    by_cases htrim : trimS input.id = ""
    · rw [if_pos htrim]
      exact ⟨⟨_, rfl⟩, rfl⟩
    · rw [if_neg htrim, if_pos hlen]
      exact ⟨⟨_, rfl⟩, rfl⟩
  · intro r hres hex hne htrim hlen hcat
    have hmain : delete_category store input noFaults =
        (Except.ok (),
          { store with
              categories := store.categories.filter (fun c => c.id ≠ trimS input.id),
              entries := reassignEntries store.entries (trimS input.id) r }) := by
      obtain ⟨cC, hcC, hcCid⟩ := hcat
      have hany : store.categories.any (fun c => c.id = trimS input.id) = true :=
        List.any_eq_true.mpr ⟨cC, hcC, decide_eq_true hcCid⟩
      unfold delete_category
      rw [if_neg htrim]
      rw [if_neg (show ¬ (store.categories.length ≤ 1) by omega)]
      rw [if_neg (by rw [hany]; exact fun h => Bool.noConfusion h)]
      by_cases hused :
          0 < (store.entries.filter (fun e => e.category_id = trimS input.id)).length
      · rw [if_pos hused, hres]
        show reassignAndRemove store (trimS input.id) r noFaults = _
        exact reassignAndRemove_ok hne hex ⟨cC, hcC, hcCid⟩
      · rw [if_neg hused]
        have hfilnil : store.entries.filter (fun e => e.category_id = trimS input.id)
            = [] := by
          cases hfe : store.entries.filter (fun e => e.category_id = trimS input.id) with
          | nil => rfl
          | cons a t =>
            exfalso
            apply hused
            rw [hfe]
            simp
        have hpoint : ∀ e ∈ store.entries, e.category_id ≠ trimS input.id := by
          intro e he
          have := List.filter_eq_nil_iff.mp hfilnil e he
          rw [Bool.not_eq_true, decide_eq_false_iff_not] at this
          exact this
        rw [removeCategoryRow_ok ⟨cC, hcC, hcCid⟩, reassignEntries_of_unused hpoint]
    refine ⟨hmain, ?_, reassignEntries_count hne store.entries,
      reassignEntries_none_left hne⟩
    unfold reassignEntries
    exact List.length_map _ _

/-- Witness for C5: two categories, one referencing entry; deleting category
`a` with explicit replacement `b` removes `a` and moves its entry. -/
theorem delete_category_spec_witness :
    delete_category
        ⟨[⟨"a", "Alpha", "2024-01-01T00:00:00Z"⟩, ⟨"b", "Beta", "2024-01-02T00:00:00Z"⟩],
          [], [⟨"e1", "sp1", "2024-01-03", "a", "wrote code", none, "2024-01-03T09:00:00Z"⟩,
            ⟨"e2", "sp1", "2024-01-04", "b", "meeting", none, "2024-01-04T09:00:00Z"⟩]⟩
        ⟨"a", some "b"⟩ noFaults =
      (Except.ok (),
        ⟨[⟨"b", "Beta", "2024-01-02T00:00:00Z"⟩],
          [], [⟨"e1", "sp1", "2024-01-03", "b", "wrote code", none, "2024-01-03T09:00:00Z"⟩,
            ⟨"e2", "sp1", "2024-01-04", "b", "meeting", none, "2024-01-04T09:00:00Z"⟩]⟩) := by
  have h := ((delete_category_spec
      ⟨[⟨"a", "Alpha", "2024-01-01T00:00:00Z"⟩, ⟨"b", "Beta", "2024-01-02T00:00:00Z"⟩],
        [], [⟨"e1", "sp1", "2024-01-03", "a", "wrote code", none, "2024-01-03T09:00:00Z"⟩,
          ⟨"e2", "sp1", "2024-01-04", "b", "meeting", none, "2024-01-04T09:00:00Z"⟩]⟩
      ⟨"a", some "b"⟩).2 "b" (by decide) (by decide) (by decide) (by decide) (by decide)
      (by decide)).1
  rw [h]
  decide

/-- Claim C9 fails on the code: `delete_category` wraps no transaction around
its two statements, so when the category-row delete fails the already
committed entry reassignment survives and the store differs from its
pre-call state. -/
theorem delete_category_rollback_counterexample :
    (delete_category
          ⟨[⟨"a", "Alpha", "T1"⟩, ⟨"b", "Beta", "T2"⟩], [],
            [⟨"e1", "sp1", "2024-01-02", "a", "did stuff", none, "T3"⟩]⟩
          ⟨"a", some "b"⟩ ⟨false, true⟩).1 = Except.error "failed to delete category" ∧
      (delete_category
          ⟨[⟨"a", "Alpha", "T1"⟩, ⟨"b", "Beta", "T2"⟩], [],
            [⟨"e1", "sp1", "2024-01-02", "a", "did stuff", none, "T3"⟩]⟩
          ⟨"a", some "b"⟩ ⟨false, true⟩).2 ≠
        ⟨[⟨"a", "Alpha", "T1"⟩, ⟨"b", "Beta", "T2"⟩], [],
          [⟨"e1", "sp1", "2024-01-02", "a", "did stuff", none, "T3"⟩]⟩ := by
  exact ⟨by decide, by decide⟩

/-- Claim C9 as amended: category deletion is not atomic. When the category
row delete fails after entries were reassigned, the reassignment stays
committed (each statement auto-commits; there is no enclosing transaction):
the call errors, the category is still present, and the entries now reference
the replacement. -/
theorem delete_category_not_atomic (store : Store) (input : DeleteCategoryInput)
    (r : String) (hres : resolvedReplacement store input = some r)
    (hex : ∃ c ∈ store.categories, c.id = r) (hne : r ≠ trimS input.id)
    (htrim : trimS input.id ≠ "") (hlen : 2 ≤ store.categories.length)
    (hcat : ∃ c ∈ store.categories, c.id = trimS input.id)
    (hused : 0 < (store.entries.filter (fun e => e.category_id = trimS input.id)).length) :
    delete_category store input ⟨false, true⟩ =
      (Except.error "failed to delete category",
        { store with entries := reassignEntries store.entries (trimS input.id) r }) := by
  obtain ⟨cC, hcC, hcCid⟩ := hcat
  have hany : store.categories.any (fun c => c.id = trimS input.id) = true :=
    List.any_eq_true.mpr ⟨cC, hcC, decide_eq_true hcCid⟩
  unfold delete_category
  rw [if_neg htrim]
  rw [if_neg (show ¬ (store.categories.length ≤ 1) by omega)]
  rw [if_neg (by rw [hany]; exact fun h => Bool.noConfusion h)]
  rw [if_pos hused, hres]
  show reassignAndRemove store (trimS input.id) r ⟨false, true⟩ = _
  exact reassignAndRemove_fault hne hex

/-- Witness for the amended C9 statement at a concrete store. -/
theorem delete_category_not_atomic_witness :
    delete_category
        ⟨[⟨"a", "Alpha", "T1"⟩, ⟨"b", "Beta", "T2"⟩], [],
          [⟨"e1", "sp1", "2024-01-02", "a", "did stuff", none, "T3"⟩]⟩
        ⟨"a", some "b"⟩ ⟨false, true⟩ =
      (Except.error "failed to delete category",
        ⟨[⟨"a", "Alpha", "T1"⟩, ⟨"b", "Beta", "T2"⟩], [],
          [⟨"e1", "sp1", "2024-01-02", "b", "did stuff", none, "T3"⟩]⟩) := by
  have h := delete_category_not_atomic
    ⟨[⟨"a", "Alpha", "T1"⟩, ⟨"b", "Beta", "T2"⟩], [],
      [⟨"e1", "sp1", "2024-01-02", "a", "did stuff", none, "T3"⟩]⟩
    ⟨"a", some "b"⟩ "b" (by decide) (by decide) (by decide) (by decide) (by decide)
    (by decide) (by decide)
  rw [h]
  decide

/-! ### Calendar dates (chrono `NaiveDate`, as used by `create_sprint`) -/

structure Date where
  year : ℤ
  month : ℕ
  day : ℕ
deriving DecidableEq, Repr

def isLeapYear (y : ℤ) : Bool :=
  y % 4 = 0 && (y % 100 ≠ 0 || y % 400 = 0)

def daysInMonth (y : ℤ) (m : ℕ) : ℕ :=
  if m = 1 ∨ m = 3 ∨ m = 5 ∨ m = 7 ∨ m = 8 ∨ m = 10 ∨ m = 12 then 31
  else if m = 4 ∨ m = 6 ∨ m = 9 ∨ m = 11 then 30
  else if m = 2 then (if isLeapYear y then 29 else 28)
  else 0

/-- Validity as `NaiveDate::from_ymd_opt` checks it; chrono's representable
year range is `-262144 ..= 262143`. -/
def validDate (y : ℤ) (m d : ℕ) : Bool :=
  1 ≤ m && m ≤ 12 && 1 ≤ d && d ≤ daysInMonth y m && -262144 ≤ y && y ≤ 262143

/-- Greedy split of up to `max` leading ASCII digits. -/
def splitDigits : ℕ → List Char → List Char × List Char
  | 0, cs => ([], cs)
  | _ + 1, [] => ([], [])
  | m + 1, c :: cs =>
    if isDigitC c then
      let p := splitDigits m cs
      (c :: p.1, p.2)
    else ([], c :: cs)

/-- chrono numeric-item parsing for `%Y`: leading whitespace is skipped, an
explicit `-`/`+` sign allows unlimited digits (value bounded by `i64`),
an unsigned year reads at most 4 digits. -/
def parseYear (cs : List Char) : Option (ℤ × List Char) :=
  match cs.dropWhile isRustWhitespace with
  | [] => none
  | c :: rest =>
    if c = '-' then
      match splitDigits rest.length rest with
      | ([], _) => none
      | (ds, tail) =>
        if parseDigits ds < 2 ^ 63 then some (-(parseDigits ds : ℤ), tail) else none
    else if c = '+' then
      match splitDigits rest.length rest with
      | ([], _) => none
      | (ds, tail) =>
        if parseDigits ds < 2 ^ 63 then some ((parseDigits ds : ℤ), tail) else none
    else
      match splitDigits 4 (c :: rest) with
      | ([], _) => none
      | (ds, tail) => some ((parseDigits ds : ℤ), tail)

/-- chrono numeric-item parsing for `%m`/`%d`: skip whitespace, read 1-2
digits. -/
def parseNum2 (cs : List Char) : Option (ℕ × List Char) :=
  match splitDigits 2 (cs.dropWhile isRustWhitespace) with
  | ([], _) => none
  | (ds, tail) => some (parseDigits ds, tail)

/-- The literal `-` of the format string. -/
def litDash : List Char → Option (List Char)
  | '-' :: rest => some rest
  | _ => none

/-- `NaiveDate::parse_from_str(s, "%Y-%m-%d")`: the three numeric items
separated by literal dashes, the whole input consumed, then
`from_ymd_opt` validity. -/
def parseDateYMD (s : String) : Option Date :=
  match parseYear s.data with
  | none => none
  | some (y, r1) =>
    match litDash r1 with
    | none => none
    | some r2 =>
      match parseNum2 r2 with
      | none => none
      | some (m, r3) =>
        match litDash r3 with
        | none => none
        | some r4 =>
          match parseNum2 r4 with
          | none => none
          | some (d, r5) =>
            if r5 = [] then
              if validDate y m d then some ⟨y, m, d⟩ else none
            else none

/-- Serial day number of a proleptic Gregorian date (days since 1970-01-01,
the standard civil-from-days conversion). The C original computes the era
`floor(y/400)` out of truncating division via a `y - 399` adjustment on
negatives; Lean's `ℤ` division already rounds down for positive divisors, so
the era is a plain quotient here. Every other division has non-negative
operands, where the two conventions agree. -/
def daysFromCivil (dt : Date) : ℤ :=
  let y : ℤ := if dt.month ≤ 2 then dt.year - 1 else dt.year
  let era : ℤ := y / 400
  let yoe : ℤ := y - era * 400
  let mp : ℤ := if 2 < dt.month then (dt.month : ℤ) - 3 else (dt.month : ℤ) + 9
  let doy : ℤ := (153 * mp + 2) / 5 + (dt.day : ℤ) - 1
  let doe : ℤ := yoe * 365 + yoe / 4 - yoe / 100 + doy
  era * 146097 + doe - 719468

/-- Inverse of `daysFromCivil`. As there, the era is `floor(z/146097)`,
which Lean's division on `ℤ` gives directly. -/
def civilFromDays (z0 : ℤ) : Date :=
  let z := z0 + 719468
  let era : ℤ := z / 146097
  let doe : ℤ := z - era * 146097
  let yoe : ℤ := (doe - doe / 1460 + doe / 36524 - doe / 146096) / 365
  let y : ℤ := yoe + era * 400
  let doy : ℤ := doe - (365 * yoe + yoe / 4 - yoe / 100)
  let mp : ℤ := (5 * doy + 2) / 153
  let d : ℤ := doy - (153 * mp + 2) / 5 + 1
  let m : ℤ := if mp < 10 then mp + 3 else mp - 9
  ⟨if m ≤ 2 then y + 1 else y, m.toNat, d.toNat⟩

/-- `date + Duration::days(n)`. -/
def addDays (dt : Date) (n : ℤ) : Date := civilFromDays (daysFromCivil dt + n)

def padNat4 (n : ℕ) : List Char :=
  if n < 10 then '0' :: '0' :: '0' :: natDigits n
  else if n < 100 then '0' :: '0' :: natDigits n
  else if n < 1000 then '0' :: natDigits n
  else natDigits n

def pad2 (n : ℕ) : List Char :=
  if n < 10 then '0' :: natDigits n else natDigits n

/-- `date.format("%Y-%m-%d")`: the year zero-padded to 4 digits, with an
explicit sign whenever it does not fit in four digits bare (`-0001`,
`+10000`, as chrono prints them), then 2-digit month and day. -/
def formatDate (dt : Date) : String :=
  ⟨(if dt.year < 0 then '-' :: padNat4 (-dt.year).toNat
    else if 10000 ≤ dt.year then '+' :: padNat4 dt.year.toNat
    else padNat4 dt.year.toNat) ++
    '-' :: pad2 dt.month ++ '-' :: pad2 dt.day⟩

/-! ### `create_sprint` (main.rs lines 966-1015) and
`next_sprint_code_db` (main.rs lines 782-804) -/

structure NewSprintInput where
  name : Option String
  start_date : String
  duration_days : Option ℤ

/-- `next_sprint_code_db`: the maximum extractable number over all existing
sprints' codes (falling back to names), or 0, plus one. `rowNumber` is the
same `sprint_number(code).or_else(|| sprint_number(name))` as in
normalization. -/
def next_sprint_code_db (sprints : List Sprint) : String :=
  formatSprintCode ((sprints.filterMap rowNumber).foldr max 0 + 1)

/-- `create_sprint`. The generated id and the `now()` timestamp are passed as
the `freshId`/`createdAt` parameters. -/
def create_sprint (sprints : List Sprint) (input : NewSprintInput)
    (freshId createdAt : String) : Except String Sprint :=
  if trimS input.start_date = "" then Except.error "start_date is required"
  else
    match parseDateYMD (trimS input.start_date) with
    | none => Except.error "start_date must be in YYYY-MM-DD format"
    | some parsedStart =>
      if input.duration_days.getD 14 ≠ 7 ∧ input.duration_days.getD 14 ≠ 14 then
        Except.error "duration_days must be 7 or 14"
      else
        Except.ok
          { id := freshId
            code := next_sprint_code_db sprints
            name :=
              match input.name with
              | some n => if trimS n = "" then next_sprint_code_db sprints else trimS n
              | none => next_sprint_code_db sprints
            start_date := trimS input.start_date
            end_date :=
              some (formatDate (addDays parsedStart (input.duration_days.getD 14 - 1)))
            created_at := createdAt }

lemma create_sprint_parsed {sprints : List Sprint} {input : NewSprintInput}
    {freshId createdAt : String} {dt : Date} (htrim : trimS input.start_date ≠ "")
    (hparse : parseDateYMD (trimS input.start_date) = some dt) :
    create_sprint sprints input freshId createdAt =
      (if input.duration_days.getD 14 ≠ 7 ∧ input.duration_days.getD 14 ≠ 14 then
        Except.error "duration_days must be 7 or 14"
      else
        Except.ok
          { id := freshId
            code := next_sprint_code_db sprints
            name :=
              match input.name with
              | some n => if trimS n = "" then next_sprint_code_db sprints else trimS n
              | none => next_sprint_code_db sprints
            start_date := trimS input.start_date
            end_date :=
              some (formatDate (addDays dt (input.duration_days.getD 14 - 1)))
            created_at := createdAt }) := by
  unfold create_sprint
  rw [if_neg htrim, hparse]

/-- Claim C4: `create_sprint` rejects unparseable start dates and durations
outside {7, 14}; on success (duration defaulting to 14) the stored sprint
ends `duration - 1` days after its start, carries the allocator's next code,
and its name defaults to that code. -/
theorem create_sprint_spec (sprints : List Sprint) (input : NewSprintInput)
    (freshId createdAt : String) :
    (parseDateYMD (trimS input.start_date) = none →
      ∃ msg, create_sprint sprints input freshId createdAt = Except.error msg) ∧
      (∀ dur, input.duration_days = some dur → dur ≠ 7 → dur ≠ 14 →
        ∃ msg, create_sprint sprints input freshId createdAt = Except.error msg) ∧
      (∀ dt, parseDateYMD (trimS input.start_date) = some dt →
        (input.duration_days = none ∨ input.duration_days = some 7 ∨
            input.duration_days = some 14) →
        ∃ s, create_sprint sprints input freshId createdAt = Except.ok s ∧
          s.end_date =
              some (formatDate (addDays dt (input.duration_days.getD 14 - 1))) ∧
          s.code = next_sprint_code_db sprints ∧
          s.code = formatSprintCode ((sprints.filterMap rowNumber).foldr max 0 + 1) ∧
          s.start_date = trimS input.start_date ∧
          (input.name = none → s.name = s.code)) := by
  refine ⟨?_, ?_, ?_⟩
  · intro hparse
    unfold create_sprint
    by_cases htrim : trimS input.start_date = ""
    · rw [if_pos htrim]
      exact ⟨_, rfl⟩
    · rw [if_neg htrim, hparse]
      exact ⟨_, rfl⟩
  · intro dur hdur h7 h14
    by_cases htrim : trimS input.start_date = ""
    · unfold create_sprint
      rw [if_pos htrim]
      exact ⟨_, rfl⟩
    · cases hparse : parseDateYMD (trimS input.start_date) with
      | none =>
        unfold create_sprint
        rw [if_neg htrim, hparse]
        exact ⟨_, rfl⟩
      | some dt =>
        rw [create_sprint_parsed htrim hparse,
          if_pos (by rw [hdur]; exact ⟨h7, h14⟩)]
        exact ⟨_, rfl⟩
  · intro dt hparse hdur
    have htrim : trimS input.start_date ≠ "" := by
      intro hcon
      rw [hcon] at hparse
      exact Option.noConfusion ((show parseDateYMD "" = none from rfl) ▸ hparse)
    have hok : ¬ (input.duration_days.getD 14 ≠ 7 ∧ input.duration_days.getD 14 ≠ 14) := by
      rcases hdur with h | h | h <;> rw [h] <;> simp
    rw [create_sprint_parsed htrim hparse, if_neg hok]
    refine ⟨_, rfl, rfl, rfl, rfl, rfl, ?_⟩
    intro hname
    rw [hname]

/-- Witness for C4: a fresh two-week sprint starting 2024-01-01 in an empty
store gets code `sprint-1`, name defaulted to the code, and end date
2024-01-14. -/
theorem create_sprint_spec_witness :
    ∃ s, create_sprint [] ⟨none, "2024-01-01", none⟩ "sprint-1700" "2024-01-01T08:00:00Z"
          = Except.ok s ∧
      s.end_date = some "2024-01-14" ∧ s.code = "sprint-1" ∧ s.name = "sprint-1" := by
  obtain ⟨s, hok, hend, hcode, -, -, hname⟩ :=
    (create_sprint_spec [] ⟨none, "2024-01-01", none⟩ "sprint-1700"
      "2024-01-01T08:00:00Z").2.2 ⟨2024, 1, 1⟩ (by decide) (Or.inl rfl)
  refine ⟨s, hok, ?_, ?_, ?_⟩
  · rw [hend]; decide
  · rw [hcode]; decide
  · rw [hname rfl, hcode]; decide

/-! ### Legacy import (`migrate_legacy_json_if_needed`, main.rs lines 406-539;
`db_is_empty` lines 392-404; helpers lines 207-351) -/

/-- The parsed legacy snapshot (struct `AppData` in main.rs). -/
structure AppData where
  categories : List Category
  sprints : List Sprint
  entries : List DailyEntry
deriving DecidableEq, Repr

/-- The impure inputs of a migration run: `now()` readings,
`timestamp_subsec_nanos` for synthesized sprint codes, and the generated
entry ids. Within one run these calls can return different values; a single
value per kind is used here, which no verified property depends on. -/
structure MigrateEnv where
  nowTs : String
  subsecNanos : ℕ
  freshIds : ℕ → String

/-- `db_is_empty`: all three tables hold zero rows. -/
def db_is_empty (store : Store) : Bool :=
  store.categories.length = 0 && store.sprints.length = 0 && store.entries.length = 0

/-- `default_categories` of the desktop app (Preview/Meeting/Tasks). -/
def default_categories (now : String) : List Category :=
  [⟨"preview", "Preview", now⟩, ⟨"meeting", "Meeting", now⟩, ⟨"tasks", "Tasks", now⟩]

/-- `ensure_default_categories`: seed the defaults into the in-memory
snapshot when it has no categories. -/
def ensure_default_categories (data : AppData) (now : String) : AppData :=
  if data.categories.isEmpty then { data with categories := default_categories now }
  else data

/-- First pass of `assign_missing_sprint_codes`: normalize parseable codes,
fill empty codes from parseable names, tracking the running highest. -/
def amscPass1 : List Sprint → ℕ → List Sprint × ℕ
  | [], highest => ([], highest)
  | s :: rest, highest =>
    if trimS s.code = "" then
      match sprintNumber s.name with
      | some number =>
        let p := amscPass1 rest (max highest number)
        ({ s with code := formatSprintCode number } :: p.1, p.2)
      | none =>
        let p := amscPass1 rest highest
        (s :: p.1, p.2)
    else
      match sprintNumber s.code with
      | some number =>
        let p := amscPass1 rest (max highest number)
        ({ s with code := formatSprintCode number } :: p.1, p.2)
      | none =>
        let p := amscPass1 rest highest
        (s :: p.1, p.2)

/-- Second pass of `assign_missing_sprint_codes`: still-empty codes get
`highest + 1`, `highest + 2`, ... in creation order. -/
def amscPass2 : List Sprint → ℕ → List Sprint
  | [], _ => []
  | s :: rest, highest =>
    if trimS s.code = "" then
      { s with code := formatSprintCode (highest + 1) } :: amscPass2 rest (highest + 1)
    else s :: amscPass2 rest highest

/-- `assign_missing_sprint_codes` from main.rs (the in-memory variant used by
the importer). The initial highest scans every sprint's code-or-name number;
the two passes then walk the sprints in `created_at` order. The source
mutates rows in place through a sorted index list; the result here is in
sorted order, which the keyed store does not observe. -/
def assign_missing_sprint_codes (data : AppData) : AppData :=
  { data with
      sprints :=
        amscPass2
          (amscPass1 (data.sprints.insertionSort createdLe)
              ((data.sprints.filterMap rowNumber).foldr max 0)).1
          (amscPass1 (data.sprints.insertionSort createdLe)
              ((data.sprints.filterMap rowNumber).foldr max 0)).2 }

/-- `humanize_category_id`: trim, replace `-`/`_` with spaces, `"Category"`
when nothing is left, else each whitespace-separated word capitalized and
lowercased, joined by single spaces. -/
def replaceSep (cs : List Char) : List Char :=
  cs.map fun c => if c = '-' ∨ c = '_' then ' ' else c

def splitWsAux : List Char → List Char → List (List Char)
  | [], acc => if acc = [] then [] else [acc.reverse]
  | c :: rest, acc =>
    if isRustWhitespace c then
      if acc = [] then splitWsAux rest [] else acc.reverse :: splitWsAux rest []
    else splitWsAux rest (c :: acc)

def toAsciiUpper (c : Char) : Char :=
  if 97 ≤ charVal c ∧ charVal c ≤ 122 then Char.ofNat (charVal c - 32) else c

def capitalizeWord : List Char → List Char
  | [] => []
  | c :: rest => toAsciiUpper c :: rest.map toAsciiLower

def humanize_category_id (raw : String) : String :=
  if replaceSep (trimL raw.data) = [] then "Category"
  else ⟨List.intercalate [' '] ((splitWsAux (replaceSep (trimL raw.data)) []).map
    capitalizeWord)⟩

/-- The synthesis loop of the importer: entries whose trimmed category id is
non-empty and unknown get a new category with that id and a humanized name. -/
def synthLoop (now : String) :
    List DailyEntry → List Category → List String → List Category
  | [], cats, _ => cats
  | e :: rest, cats, known =>
    if trimS e.category_id = "" ∨ (trimS e.category_id) ∈ known then
      synthLoop now rest cats known
    else
      synthLoop now rest
        (cats ++ [⟨trimS e.category_id, humanize_category_id (trimS e.category_id), now⟩])
        (trimS e.category_id :: known)

def synthesizeCategories (data : AppData) (now : String) : AppData :=
  { data with
      categories :=
        synthLoop now data.entries data.categories (data.categories.map fun c => c.id) }

/-- `INSERT OR IGNORE INTO categories` loop: skip blank ids/names; a row
conflicting on the id primary key or the `NOCASE`-unique name is silently
ignored (pre-existing rows win). -/
def insertCategoriesTx : List Category → List Category → List Category
  | [], acc => acc
  | c :: rest, acc =>
    if trimS c.id = "" ∨ trimS c.name = "" then insertCategoriesTx rest acc
    else if acc.any (fun x => x.id = c.id) ∨ acc.any (fun x => lowerS x.name = lowerS c.name)
    then insertCategoriesTx rest acc
    else insertCategoriesTx rest (acc ++ [c])

/-- `INSERT OR IGNORE INTO sprints` loop: skip blank ids/start dates, default
blank codes from the subsecond-nanos timestamp and blank names from the code;
conflicts on id or code are ignored. The migrated-id set records every
non-skipped legacy sprint, also when its insert was ignored. -/
def insertSprintsTx (subsec : ℕ) : List Sprint → List Sprint → List Sprint × List String
  | [], acc => (acc, [])
  | s :: rest, acc =>
    if trimS s.id = "" ∨ trimS s.start_date = "" then insertSprintsTx subsec rest acc
    else
      let code := if trimS s.code = "" then formatSprintCode subsec else trimS s.code
      let row : Sprint :=
        ⟨s.id, code, if trimS s.name = "" then code else trimS s.name,
          s.start_date, s.end_date, s.created_at⟩
      if acc.any (fun x => x.id = row.id) ∨ acc.any (fun x => x.code = row.code) then
        let p := insertSprintsTx subsec rest acc
        (p.1, s.id :: p.2)
      else
        let p := insertSprintsTx subsec rest (acc ++ [row])
        (p.1, s.id :: p.2)

/-- `INSERT OR IGNORE INTO entries` loop: skip rows with blank fields or a
sprint id that did not survive the sprint pass; generate ids for blank ones.
`OR IGNORE` does not cover foreign keys: an entry whose category or sprint
row is absent aborts the whole transaction. -/
def insertEntriesTx (freshIds : ℕ → String) (catsT : List Category)
    (sprintsT : List Sprint) :
    List DailyEntry → List String → List DailyEntry → ℕ → Except String (List DailyEntry)
  | [], _, acc, _ => Except.ok acc
  | e :: rest, migratedIds, acc, k =>
    if trimS e.sprint_id = "" ∨ trimS e.category_id = "" ∨ trimS e.title = "" ∨
        trimS e.date = "" then
      insertEntriesTx freshIds catsT sprintsT rest migratedIds acc k
    else if e.sprint_id ∉ migratedIds then
      insertEntriesTx freshIds catsT sprintsT rest migratedIds acc k
    else if catsT.any (fun c => c.id = e.category_id) = false ∨
        sprintsT.any (fun s => s.id = e.sprint_id) = false then
      Except.error ("failed to migrate entry " ++ e.id)
    else
      let row : DailyEntry := { e with id := if trimS e.id = "" then freshIds k else e.id }
      if acc.any (fun x => x.id = row.id) then
        insertEntriesTx freshIds catsT sprintsT rest migratedIds acc
          (if trimS e.id = "" then k + 1 else k)
      else
        insertEntriesTx freshIds catsT sprintsT rest migratedIds (acc ++ [row])
          (if trimS e.id = "" then k + 1 else k)

/-- The migration transaction: categories, then sprints, then entries.
Failure anywhere rolls the whole transaction back (the caller keeps the
original store on `Except.error`). -/
def applyMigration (store : Store) (legacy : AppData) (env : MigrateEnv) :
    Except String Store :=
  match insertEntriesTx env.freshIds (insertCategoriesTx legacy.categories store.categories)
      (insertSprintsTx env.subsecNanos legacy.sprints store.sprints).1 legacy.entries
      (insertSprintsTx env.subsecNanos legacy.sprints store.sprints).2 store.entries 0 with
  | Except.error e => Except.error e
  | Except.ok entriesT =>
    Except.ok
      ⟨insertCategoriesTx legacy.categories store.categories,
        (insertSprintsTx env.subsecNanos legacy.sprints store.sprints).1, entriesT⟩

/-- `migrate_legacy_json_if_needed`. `legacyFile` is `none` when the snapshot
file does not exist, `some (Except.error e)` when it exists but cannot be
read or parsed, and `some (Except.ok data)` for a parsed snapshot. An
`Except.error` result means the transaction was rolled back and the store is
unchanged. -/
def migrate_legacy_json_if_needed (store : Store)
    (legacyFile : Option (Except String AppData)) (env : MigrateEnv) :
    Except String Store :=
  if db_is_empty store = false then Except.ok store
  else
    match legacyFile with
    | none => Except.ok store
    | some (Except.error e) => Except.error e
    | some (Except.ok legacy) =>
      applyMigration store
        (synthesizeCategories
          (assign_missing_sprint_codes (ensure_default_categories legacy env.nowTs))
          env.nowTs)
        env

/-- Claim C7: once the store holds any category, sprint or entry, the legacy
importer is a no-op: it succeeds and returns the store unchanged, whatever
the snapshot file contains and whether it exists at all. -/
theorem legacy_import_gate (store : Store)
    (legacyFile : Option (Except String AppData)) (env : MigrateEnv)
    (h : db_is_empty store = false) :
    migrate_legacy_json_if_needed store legacyFile env = Except.ok store := by
  unfold migrate_legacy_json_if_needed
  rw [if_pos h]

/-- Witness for C7: a populated store with a still-present (and even
populated) snapshot file is returned untouched. -/
theorem legacy_import_gate_witness :
    migrate_legacy_json_if_needed
        ⟨[⟨"tasks", "Tasks", "T0"⟩], [], []⟩
        (some (Except.ok ⟨[⟨"old", "Old", "T0"⟩], [], []⟩))
        ⟨"T9", 123456, fun _ => "entry-import-1"⟩ =
      Except.ok ⟨[⟨"tasks", "Tasks", "T0"⟩], [], []⟩ :=
  legacy_import_gate ⟨[⟨"tasks", "Tasks", "T0"⟩], [], []⟩
    (some (Except.ok ⟨[⟨"old", "Old", "T0"⟩], [], []⟩))
    ⟨"T9", 123456, fun _ => "entry-import-1"⟩ (by decide)

/-! ### Report engine (`generate_report`, main.rs lines 1153-1290;
`within_range` lines 230-244; `list_entries_for_sprint_db` lines 748-780) -/

/-- One `cmp(x, y).then(rest)` step of a lexicographic comparison, as a
`<=` test. -/
def lexStep (x y : String) (rest : Bool) : Bool :=
  if strLt x y then true else if x = y then rest else false

/-- The `(date, category_id, created_at)` lexicographic comparison used by
both the SQL `ORDER BY` of `list_entries_for_sprint_db` and the
`cmp.then.then` chain of the `sort_by` in `generate_report`. -/
def reportLeB (a b : DailyEntry) : Bool :=
  lexStep a.date b.date
    (lexStep a.category_id b.category_id (strLe a.created_at b.created_at))

def reportLe (a b : DailyEntry) : Prop := reportLeB a b = true

instance : DecidableRel reportLe := fun a b =>
  inferInstanceAs (Decidable (reportLeB a b = true))

/-- `within_range` from main.rs: reject dates before the lower bound or after
the upper bound, absent bounds being open. -/
def within_range (date : String) (fromDate toDate : Option String) : Bool :=
  (match fromDate with
   | some start => !(strLt date start)
   | none => true) &&
  (match toDate with
   | some stop => !(strLt stop date)
   | none => true)

structure ReportInput where
  sprint_id : String
  from_date : Option String
  to_date : Option String
  categories : Option (List String)

/-- `SELECT ... FROM entries WHERE sprint_id = ?1 ORDER BY date, category_id,
created_at`. -/
def list_entries_for_sprint_db (store : Store) (sprintId : String) : List DailyEntry :=
  (store.entries.filter (fun e => e.sprint_id = sprintId)).insertionSort reportLe

/-- The category filter: an absent or empty list means no filtering. -/
def categoryFilterSet (input : ReportInput) : Option (List String) :=
  match input.categories with
  | some cs => if cs = [] then none else some cs
  | none => none

/-- Membership in the (BTreeSet) category filter, `true` when unfiltered. -/
def categoryOk (input : ReportInput) (e : DailyEntry) : Bool :=
  match categoryFilterSet input with
  | some set => set.any (fun c => c = e.category_id)
  | none => true

/-- The filtered, sorted entry list of the report pipeline. -/
def reportEntries (store : Store) (input : ReportInput) : List DailyEntry :=
  (((list_entries_for_sprint_db store input.sprint_id).filter
        (fun e => within_range e.date input.from_date input.to_date)).filter
      (fun e => categoryOk input e)).insertionSort reportLe

/-- Display label of an entry: the stored category name, falling back to the
raw category id when the category cannot be resolved. (The source builds a
`HashMap` from the category table; ids are a primary key, so the first match
is the only one.) -/
def categoryLabel (cats : List Category) (e : DailyEntry) : String :=
  match cats.find? (fun c => c.id = e.category_id) with
  | some c => c.name
  | none => e.category_id

/-- Sorted association list keyed by `String`, modelling `BTreeMap`:
`alUpdate k f` replaces the value at `k` by `f (some old)`, inserting
`f none` at the ordered position when `k` is absent (`entry(k).or_default`
followed by a mutation is `f`). -/
def alUpdate {β : Type} (k : String) (f : Option β → β) :
    List (String × β) → List (String × β)
  | [] => [(k, f none)]
  | (k', v) :: rest =>
    if strLt k k' then (k, f none) :: (k', v) :: rest
    else if k = k' then (k, f (some v)) :: rest
    else (k', v) :: alUpdate k f rest

/-- Lookup in the association list (the first, and in sorted lists only,
binding of the key). -/
def alGet {β : Type} (l : List (String × β)) (k : String) : Option β :=
  (l.find? (fun p => p.1 = k)).map Prod.snd

/-- The nested `BTreeMap<String, BTreeMap<String, Vec<DailyEntry>>>`. -/
abbrev Grouped := List (String × List (String × List DailyEntry))

/-- One `grouped.entry(date).or_default().entry(label).or_default().push(e)`. -/
def groupedInsert (g : Grouped) (date label : String) (e : DailyEntry) : Grouped :=
  alUpdate date
    (fun inner => alUpdate label (fun lv => lv.getD [] ++ [e]) (inner.getD [])) g

/-- The grouping loop of `generate_report`. -/
def buildGrouped (cats : List Category) (entries : List DailyEntry) : Grouped :=
  entries.foldl (fun g e => groupedInsert g e.date (categoryLabel cats e) e) []

/-- The entries grouped under a date section and category subsection (an
absent key holds no entries). -/
def bucketGet (g : Grouped) (date label : String) : List DailyEntry :=
  (alGet ((alGet g date).getD []) label).getD []

/-- One rendered bullet: `- <title>` or `- <title> - <details>`. -/
def renderEntryLine (e : DailyEntry) : String :=
  "- " ++ e.title ++ (match e.details with | some d => " - " ++ d | none => "") ++ "\n"

/-- One `###` category subsection with its bullets. -/
def renderInner (inner : List (String × List DailyEntry)) : String :=
  inner.foldl
    (fun acc p =>
      acc ++ "### " ++ p.1 ++ "\n" ++ p.2.foldl (fun a e => a ++ renderEntryLine e) "" ++ "\n")
    ""

/-- The `##` date sections of the report body. -/
def renderSections (g : Grouped) : String :=
  g.foldl (fun acc p => acc ++ "## " ++ p.1 ++ "\n\n" ++ renderInner p.2) ""

/-- The header block of the report. -/
def renderHeader (sprint : Sprint) (input : ReportInput) (nowTs : String)
    (total : ℕ) : String :=
  "# Sprint Report: " ++ sprint.name ++ "\n\n" ++
    "- Sprint ID: `" ++ sprint.id ++ "`\n" ++
    "- Sprint Code: `" ++ sprint.code ++ "`\n" ++
    "- Sprint Window: " ++ sprint.start_date ++ " to " ++ sprint.end_date.getD "open" ++
    "\n" ++
    "- Exported At: " ++ nowTs ++ "\n" ++
    (match input.from_date with
     | some f => "- Report From: " ++ f ++ "\n"
     | none => "") ++
    (match input.to_date with
     | some t => "- Report To: " ++ t ++ "\n"
     | none => "") ++
    "- Included Items: " ++ (⟨natDigits total⟩ : String) ++ "\n\n"

/-- `generate_report`: resolve the sprint, filter and sort its entries, group
them, render header and body, return the markdown and the item count. The
export timestamp is the `nowTs` parameter; writing the file (a path built
from `slugify` of the sprint name plus a timestamp) is the only part not
modelled. -/
def generate_report (store : Store) (input : ReportInput) (nowTs : String) :
    Except String (String × ℕ) :=
  match store.sprints.find? (fun s => s.id = input.sprint_id) with
  | none => Except.error "the selected sprint does not exist"
  | some sprint =>
    Except.ok
      (renderHeader sprint input nowTs (reportEntries store input).length ++
        (if buildGrouped (list_categories_db store.categories)
            (reportEntries store input) = [] then
          "No items found for the selected filters.\n"
        else
          renderSections
            (buildGrouped (list_categories_db store.categories)
              (reportEntries store input))),
        (reportEntries store input).length)

/-! ### Order facts for the report pipeline -/

lemma strLe_of_strLt {a b : String} (h : strLt a b = true) : strLe a b = true := by
  rcases strLe_total a b with hab | hba
  · exact hab
  · rw [strLt_iff] at h
    rw [h] at hba
    exact Bool.noConfusion hba

lemma strLt_irrefl (a : String) : ¬ strLt a a = true := by
  intro h
  rw [strLt_iff, strLe_refl] at h
  exact Bool.noConfusion h

lemma strLt_ne {a b : String} (h : strLt a b = true) : a ≠ b := by
  intro he
  rw [he] at h
  exact strLt_irrefl b h

lemma strLt_rev {a b : String} (h1 : ¬ strLt a b = true) (h2 : a ≠ b) :
    strLt b a = true :=
  strLt_of_le_ne (strLe_of_not_lt h1) fun he => h2 he.symm

lemma strLt_trans' {a b c : String} (h1 : strLt a b = true) (h2 : strLt b c = true) :
    strLt a c = true := by
  rw [strLt_iff]
  cases hb : strLe c a with
  | false => rfl
  | true =>
    exfalso
    have hcb := strLe_trans hb (strLe_of_strLt h1)
    rw [strLt_iff] at h2
    rw [h2] at hcb
    exact Bool.noConfusion hcb

lemma lexStep_eq_true_iff {x y : String} {r : Bool} :
    lexStep x y r = true ↔ (strLt x y = true ∨ (x = y ∧ r = true)) := by
  unfold lexStep
  by_cases h1 : strLt x y = true
  · rw [if_pos h1]
    exact ⟨fun _ => Or.inl h1, fun _ => rfl⟩
  · rw [if_neg h1]
    by_cases h2 : x = y
    · rw [if_pos h2]
      constructor
      · intro hr
        exact Or.inr ⟨h2, hr⟩
      · rintro (h | ⟨-, hr⟩)
        · exact absurd h h1
        · exact hr
    · rw [if_neg h2]
      constructor
      · intro h
        exact absurd h (by simp)
      · rintro (h | ⟨he, -⟩)
        · exact absurd h h1
        · exact absurd he h2

lemma lexStep_total (x y : String) (r1 r2 : Bool) (h : r1 = true ∨ r2 = true) :
    lexStep x y r1 = true ∨ lexStep y x r2 = true := by
  by_cases h2 : x = y
  · rcases h with hr | hr
    · left; rw [lexStep_eq_true_iff]; exact Or.inr ⟨h2, hr⟩
    · right; rw [lexStep_eq_true_iff]; exact Or.inr ⟨h2.symm, hr⟩
  · by_cases h1 : strLt x y = true
    · left; rw [lexStep_eq_true_iff]; exact Or.inl h1
    · right; rw [lexStep_eq_true_iff]; exact Or.inl (strLt_rev h1 h2)

lemma lexStep_trans {x y z : String} {r1 r2 r3 : Bool}
    (h1 : lexStep x y r1 = true) (h2 : lexStep y z r2 = true)
    (hr : r1 = true → r2 = true → r3 = true) : lexStep x z r3 = true := by
  rw [lexStep_eq_true_iff] at h1 h2 ⊢
  rcases h1 with h1 | ⟨he1, hr1⟩
  · rcases h2 with h2 | ⟨he2, -⟩
    · exact Or.inl (strLt_trans' h1 h2)
    · exact Or.inl (he2 ▸ h1)
  · rcases h2 with h2 | ⟨he2, hr2⟩
    · exact Or.inl (he1 ▸ h2)
    · exact Or.inr ⟨he1.trans he2, hr hr1 hr2⟩

instance : IsTotal DailyEntry reportLe :=
  ⟨fun a b => by
    show reportLeB a b = true ∨ reportLeB b a = true
    unfold reportLeB
    exact lexStep_total _ _ _ _ (lexStep_total _ _ _ _ (strLe_total _ _))⟩

instance : IsTrans DailyEntry reportLe :=
  ⟨fun a b c h1 h2 => by
    show reportLeB a c = true
    unfold reportLe reportLeB at h1 h2
    unfold reportLeB
    exact lexStep_trans h1 h2 fun hx1 hx2 =>
      lexStep_trans hx1 hx2 fun ht1 ht2 => strLe_trans ht1 ht2⟩

/-! ### Facts about the sorted association map -/

lemma alUpdate_ne_nil {β : Type} (k : String) (f : Option β → β) :
    ∀ l : List (String × β), alUpdate k f l ≠ [] := by
  intro l
  cases l with
  | nil => exact fun h => List.noConfusion h
  | cons q rest =>
    obtain ⟨k', v⟩ := q
    unfold alUpdate
    by_cases h1 : strLt k k' = true
    · rw [if_pos h1]; exact fun h => List.noConfusion h
    · rw [if_neg h1]
      by_cases h2 : k = k'
      · rw [if_pos h2]; exact fun h => List.noConfusion h
      · rw [if_neg h2]; exact fun h => List.noConfusion h

lemma mem_alUpdate {β : Type} {k : String} {f : Option β → β} :
    ∀ {l : List (String × β)} {p : String × β}, p ∈ alUpdate k f l →
      p = (k, f none) ∨ (∃ v, (k, v) ∈ l ∧ p = (k, f (some v))) ∨ p ∈ l := by
  intro l
  induction l with
  | nil =>
    intro p hp
    rcases List.mem_cons.mp hp with h | h
    · exact Or.inl h
    · exact absurd h (List.not_mem_nil p)
  | cons q rest ih =>
    obtain ⟨k', v⟩ := q
    intro p hp
    unfold alUpdate at hp
    by_cases h1 : strLt k k' = true
    · rw [if_pos h1] at hp
      rcases List.mem_cons.mp hp with h | h
      · exact Or.inl h
      · exact Or.inr (Or.inr h)
    · rw [if_neg h1] at hp
      by_cases h2 : k = k'
      · rw [if_pos h2] at hp
        rcases List.mem_cons.mp hp with h | h
        · exact Or.inr (Or.inl ⟨v, by rw [h2]; exact List.mem_cons_self _ _, h⟩)
        · exact Or.inr (Or.inr (List.mem_cons_of_mem _ h))
      · rw [if_neg h2] at hp
        rcases List.mem_cons.mp hp with h | h
        · exact Or.inr (Or.inr (by rw [h]; exact List.mem_cons_self _ _))
        · rcases ih h with h' | ⟨w, hw, hp'⟩ | h'
          · exact Or.inl h'
          · exact Or.inr (Or.inl ⟨w, List.mem_cons_of_mem _ hw, hp'⟩)
          · exact Or.inr (Or.inr (List.mem_cons_of_mem _ h'))

lemma alUpdate_sorted {β : Type} {k : String} {f : Option β → β} :
    ∀ {l : List (String × β)},
      List.Pairwise (fun p q => strLt p.1 q.1 = true) l →
      List.Pairwise (fun p q => strLt p.1 q.1 = true) (alUpdate k f l) := by
  intro l
  induction l with
  | nil =>
    intro _
    exact List.pairwise_singleton _ _
  | cons q rest ih =>
    obtain ⟨k', v⟩ := q
    intro hp
    rw [List.pairwise_cons] at hp
    obtain ⟨hhead, htail⟩ := hp
    unfold alUpdate
    by_cases h1 : strLt k k' = true
    · rw [if_pos h1, List.pairwise_cons]
      constructor
      · intro p hp'
        rcases List.mem_cons.mp hp' with h | h
        · rw [h]; exact h1
        · exact strLt_trans' h1 (hhead p h)
      · rw [List.pairwise_cons]
        exact ⟨hhead, htail⟩
    · by_cases h2 : k = k'
      · rw [if_neg h1, if_pos h2, List.pairwise_cons]
        refine ⟨?_, htail⟩
        intro p hp'
        show strLt k p.1 = true
        rw [h2]
        exact hhead p hp'
      · rw [if_neg h1, if_neg h2, List.pairwise_cons]
        constructor
        · intro p hp'
          rcases mem_alUpdate hp' with h | ⟨w, _, hpk⟩ | h
          · rw [h]; exact strLt_rev h1 h2
          · rw [hpk]; exact strLt_rev h1 h2
          · exact hhead p h
        · exact ih htail

lemma alGet_mem {β : Type} {l : List (String × β)} {k : String} {v : β}
    (h : alGet l k = some v) : (k, v) ∈ l := by
  unfold alGet at h
  obtain ⟨p, hfind, hsnd⟩ := Option.map_eq_some'.mp h
  obtain ⟨pk, pv⟩ := p
  have hp := List.find?_some hfind
  simp only [decide_eq_true_eq] at hp
  have hmem := List.mem_of_find?_eq_some hfind
  have hsnd' : pv = v := hsnd
  rw [show (k, v) = (pk, pv) by rw [hp, ← hsnd']]
  exact hmem

lemma alGet_alUpdate_other {β : Type} {k k' : String} (hne : k' ≠ k) (f : Option β → β) :
    ∀ l : List (String × β), alGet (alUpdate k f l) k' = alGet l k' := by
  intro l
  induction l with
  | nil =>
    unfold alUpdate alGet
    rw [List.find?_cons_of_neg _
      (by simp only [decide_eq_true_eq]; exact fun he => hne he.symm)]
  | cons q rest ih =>
    obtain ⟨k₀, v⟩ := q
    unfold alUpdate
    by_cases h1 : strLt k k₀ = true
    · rw [if_pos h1]
      unfold alGet
      rw [List.find?_cons_of_neg _
        (by simp only [decide_eq_true_eq]; exact fun he => hne he.symm)]
    · by_cases h2 : k = k₀
      · rw [if_neg h1, if_pos h2]
        unfold alGet
        rw [List.find?_cons_of_neg _
          (by simp only [decide_eq_true_eq]; exact fun he => hne he.symm)]
        rw [List.find?_cons_of_neg _
          (by simp only [decide_eq_true_eq]; exact fun he => hne (by rw [← he, ← h2]))]
      · rw [if_neg h1, if_neg h2]
        unfold alGet at ih ⊢
        by_cases h3 : k₀ = k'
        · rw [List.find?_cons_of_pos _ (by simp [h3]),
            List.find?_cons_of_pos _ (by simp [h3])]
        · rw [List.find?_cons_of_neg _ (by simp [h3]),
            List.find?_cons_of_neg _ (by simp [h3])]
          exact ih

lemma alGet_alUpdate_self {β : Type} {k : String} {f : Option β → β} :
    ∀ {l : List (String × β)},
      List.Pairwise (fun p q => strLt p.1 q.1 = true) l →
      alGet (alUpdate k f l) k = some (f (alGet l k)) := by
  intro l
  induction l with
  | nil =>
    intro _
    unfold alGet alUpdate
    rw [List.find?_cons_of_pos _ (by simp)]
    rfl
  | cons q rest ih =>
    obtain ⟨k₀, v⟩ := q
    intro hp
    rw [List.pairwise_cons] at hp
    obtain ⟨hhead, htail⟩ := hp
    unfold alUpdate
    by_cases h1 : strLt k k₀ = true
    · rw [if_pos h1]
      have hne0 : ¬ (k₀ = k) := fun he => strLt_ne h1 he.symm
      have hrest : rest.find? (fun p => p.1 = k) = none := by
        rw [List.find?_eq_none]
        intro p hp'
        simp only [decide_eq_true_eq]
        intro he
        have hlt := hhead p hp'
        rw [he] at hlt
        exact strLt_irrefl k (strLt_trans' h1 hlt)
      unfold alGet
      rw [List.find?_cons_of_pos _ (by simp),
        List.find?_cons_of_neg _ (by simp [hne0]), hrest]
      rfl
    · by_cases h2 : k = k₀
      · rw [if_neg h1, if_pos h2]
        unfold alGet
        rw [List.find?_cons_of_pos _ (by simp),
          List.find?_cons_of_pos _ (by simp [h2])]
        rfl
      · rw [if_neg h1, if_neg h2]
        unfold alGet at ih ⊢
        rw [List.find?_cons_of_neg _ (by simp only [decide_eq_true_eq]; exact fun he => h2 he.symm),
          List.find?_cons_of_neg _ (by simp only [decide_eq_true_eq]; exact fun he => h2 he.symm)]
        exact ih htail

/-- Well-formedness of the grouped map: strictly increasing date keys, and
strictly increasing label keys inside every date bucket (the `BTreeMap`
invariant). -/
def groupedWf (g : Grouped) : Prop :=
  List.Pairwise (fun p q => strLt p.1 q.1 = true) g ∧
  ∀ p ∈ g, List.Pairwise (fun a b => strLt a.1 b.1 = true) p.2

lemma groupedWf_insert {g : Grouped} (hwf : groupedWf g) (d0 l0 : String)
    (e : DailyEntry) : groupedWf (groupedInsert g d0 l0 e) := by
  obtain ⟨houter, hinner⟩ := hwf
  unfold groupedInsert
  constructor
  · exact alUpdate_sorted houter
  · intro p hp
    rcases mem_alUpdate hp with h | ⟨w, hw, h⟩ | h
    · rw [h]
      exact alUpdate_sorted List.Pairwise.nil
    · rw [h]
      exact alUpdate_sorted (hinner (d0, w) hw)
    · exact hinner p h

lemma bucketGet_groupedInsert {g : Grouped} (hwf : groupedWf g)
    {d0 l0 : String} {e : DailyEntry} (date label : String) :
    bucketGet (groupedInsert g d0 l0 e) date label =
      if date = d0 ∧ label = l0 then bucketGet g date label ++ [e]
      else bucketGet g date label := by
  obtain ⟨houter, hinner⟩ := hwf
  unfold groupedInsert bucketGet
  by_cases hd : date = d0
  · rw [hd, alGet_alUpdate_self houter]
    simp only [Option.getD_some]
    have hsorted : List.Pairwise (fun a b => strLt a.1 b.1 = true)
        ((alGet g d0).getD []) := by
      cases hg : alGet g d0 with
      | none => exact List.Pairwise.nil
      | some inner => exact hinner _ (alGet_mem hg)
    by_cases hl : label = l0
    · rw [hl, alGet_alUpdate_self hsorted]
      simp only [Option.getD_some]
      split_ifs with hcc
      · rfl
      · exact absurd (by simp) hcc
    · rw [alGet_alUpdate_other hl, if_neg (fun hc => hl hc.2)]
  · rw [alGet_alUpdate_other hd, if_neg (fun hc => hd hc.1)]

lemma buildGrouped_invariant (cats : List Category) :
    ∀ (entries done : List DailyEntry) (g : Grouped),
      groupedWf g →
      (∀ date label, bucketGet g date label =
        done.filter (fun x => x.date = date && categoryLabel cats x = label)) →
      groupedWf (entries.foldl
          (fun acc x => groupedInsert acc x.date (categoryLabel cats x) x) g) ∧
      ∀ date label,
        bucketGet (entries.foldl
            (fun acc x => groupedInsert acc x.date (categoryLabel cats x) x) g)
            date label =
          (done ++ entries).filter
            (fun x => x.date = date && categoryLabel cats x = label) := by
  intro entries
  induction entries with
  | nil =>
    intro done g hwf hbucket
    refine ⟨hwf, ?_⟩
    intro date label
    rw [List.append_nil]
    exact hbucket date label
  | cons x rest ih =>
    intro done g hwf hbucket
    have hwf' := groupedWf_insert hwf x.date (categoryLabel cats x) x
    have hbucket' : ∀ date label,
        bucketGet (groupedInsert g x.date (categoryLabel cats x) x) date label =
          (done ++ [x]).filter
            (fun y => y.date = date && categoryLabel cats y = label) := by
      intro date label
      rw [bucketGet_groupedInsert ⟨hwf.1, hwf.2⟩, List.filter_append,
        hbucket date label]
      by_cases hc : date = x.date ∧ label = categoryLabel cats x
      · rw [if_pos hc]
        have h1 : (decide (x.date = date) &&
            decide (categoryLabel cats x = label)) = true := by
          rw [hc.1, hc.2]
          simp
        simp [List.filter_cons, h1]
      · rw [if_neg hc]
        have h1 : (decide (x.date = date) &&
            decide (categoryLabel cats x = label)) = false := by
          rcases not_and_or.mp hc with h | h
          · have hx : decide (x.date = date) = false :=
              decide_eq_false (fun he => h he.symm)
            simp [hx]
          · have hx : decide (categoryLabel cats x = label) = false :=
              decide_eq_false (fun he => h he.symm)
            simp [hx]
        simp [List.filter_cons, h1]
    have hres := ih (done ++ [x])
      (groupedInsert g x.date (categoryLabel cats x) x) hwf' hbucket'
    refine ⟨hres.1, ?_⟩
    intro date label
    have hstep := hres.2 date label
    rw [List.append_assoc] at hstep
    exact hstep

lemma buildGrouped_char (cats : List Category) (entries : List DailyEntry) :
    groupedWf (buildGrouped cats entries) ∧
    ∀ date label, bucketGet (buildGrouped cats entries) date label =
      entries.filter (fun x => x.date = date && categoryLabel cats x = label) := by
  have h := buildGrouped_invariant cats entries [] []
    ⟨List.Pairwise.nil, fun p hp => absurd hp (List.not_mem_nil p)⟩
    (fun date label => rfl)
  refine ⟨h.1, fun date label => ?_⟩
  have hb := h.2 date label
  rw [List.nil_append] at hb
  exact hb

lemma foldl_groupedInsert_ne_nil (cats : List Category) :
    ∀ (rest : List DailyEntry) (g : Grouped), g ≠ [] →
      rest.foldl (fun acc x => groupedInsert acc x.date (categoryLabel cats x) x)
          g ≠ [] := by
  intro rest
  induction rest with
  | nil => exact fun g hg => hg
  | cons x r ih =>
    intro g _
    exact ih _ (alUpdate_ne_nil _ _ _)

lemma buildGrouped_eq_nil_iff (cats : List Category) (entries : List DailyEntry) :
    buildGrouped cats entries = [] ↔ entries = [] := by
  cases entries with
  | nil => exact ⟨fun _ => rfl, fun _ => rfl⟩
  | cons x r =>
    constructor
    · intro h
      exact absurd h (foldl_groupedInsert_ne_nil cats r _ (alUpdate_ne_nil _ _ _))
    · intro h
      exact List.noConfusion h

/-- Claim C8: for every sprint resolvable by id, report generation keeps
exactly the sprint's entries passing the date-range and category filters
(with the same multiplicity), sorts them by `(date, category_id, created_at)`
ascending, groups them by strictly ascending date and, within a date, by
strictly ascending category display name (raw id fallback), each bucket
holding exactly the processed entries with that date and label in order;
the output is the header followed by either the explicit no-items line
(exactly when nothing survives filtering) or the rendered sections, paired
with the surviving-entry count. -/
theorem generate_report_spec (store : Store) (input : ReportInput)
    (nowTs : String) (sprint : Sprint)
    (hfind : store.sprints.find? (fun s => s.id = input.sprint_id) = some sprint) :
    (reportEntries store input).Perm
        (((store.entries.filter (fun e => e.sprint_id = input.sprint_id)).filter
            (fun e => within_range e.date input.from_date input.to_date)).filter
          (fun e => categoryOk input e)) ∧
    (∀ e : DailyEntry, e ∈ reportEntries store input ↔
        e ∈ store.entries ∧ e.sprint_id = input.sprint_id ∧
          within_range e.date input.from_date input.to_date = true ∧
          categoryOk input e = true) ∧
    List.Pairwise reportLe (reportEntries store input) ∧
    List.Pairwise (fun p q => strLt p.1 q.1 = true)
      (buildGrouped (list_categories_db store.categories)
        (reportEntries store input)) ∧
    (∀ p ∈ buildGrouped (list_categories_db store.categories)
        (reportEntries store input),
        List.Pairwise (fun a b => strLt a.1 b.1 = true) p.2) ∧
    (∀ date label,
        bucketGet (buildGrouped (list_categories_db store.categories)
            (reportEntries store input)) date label =
          (reportEntries store input).filter
            (fun e => e.date = date &&
              categoryLabel (list_categories_db store.categories) e = label)) ∧
    (buildGrouped (list_categories_db store.categories)
        (reportEntries store input) = [] ↔
      reportEntries store input = []) ∧
    generate_report store input nowTs =
      Except.ok
        (renderHeader sprint input nowTs (reportEntries store input).length ++
          (if buildGrouped (list_categories_db store.categories)
              (reportEntries store input) = [] then
            "No items found for the selected filters.\n"
          else
            renderSections
              (buildGrouped (list_categories_db store.categories)
                (reportEntries store input))),
          (reportEntries store input).length) := by
  have hperm : (reportEntries store input).Perm
      (((store.entries.filter (fun e => e.sprint_id = input.sprint_id)).filter
          (fun e => within_range e.date input.from_date input.to_date)).filter
        (fun e => categoryOk input e)) := by
    unfold reportEntries list_entries_for_sprint_db
    exact (List.perm_insertionSort _ _).trans
      (((List.perm_insertionSort _ _).filter _).filter _)
  obtain ⟨hwfG, hbucketG⟩ :=
    buildGrouped_char (list_categories_db store.categories)
      (reportEntries store input)
  refine ⟨hperm, ?_, ?_, hwfG.1, hwfG.2, hbucketG,
    buildGrouped_eq_nil_iff _ _, ?_⟩
  · intro e
    rw [hperm.mem_iff]
    simp only [List.mem_filter, decide_eq_true_eq]
    tauto
  · unfold reportEntries
    exact List.sorted_insertionSort reportLe _
  · unfold generate_report
    rw [hfind]

/-- A concrete store for exercising the report pipeline: two categories, one
sprint, two in-sprint entries on the same date in different categories, and
one entry of another sprint. -/
def reportStoreEx : Store :=
  ⟨[⟨"cat-tasks", "Tasks", "T0"⟩, ⟨"cat-meeting", "Meeting", "T1"⟩],
   [⟨"sp1", "sprint-1", "Sprint One", "2024-01-01", some "2024-01-14", "T0"⟩],
   [⟨"en1", "sp1", "2024-01-02", "cat-tasks", "Fix bug", none, "T1"⟩,
    ⟨"en2", "sp1", "2024-01-02", "cat-meeting", "Standup", some "notes", "T2"⟩,
    ⟨"en3", "sp2", "2024-01-02", "cat-tasks", "Other sprint", none, "T3"⟩]⟩

/-- A concrete report request: open lower bound, an upper bound, and an empty
category filter (meaning all categories). -/
def reportInputEx : ReportInput := ⟨"sp1", none, some "2024-01-10", some []⟩

/-- Witness for C8: on the concrete store the sprint resolves, the processed
list is sorted, the grouped map is empty only if the processed list is, and
the `2024-01-02`/`Tasks` bucket is exactly the matching filtered slice. -/
theorem generate_report_spec_witness :
    List.Pairwise reportLe (reportEntries reportStoreEx reportInputEx) ∧
    bucketGet
        (buildGrouped (list_categories_db reportStoreEx.categories)
          (reportEntries reportStoreEx reportInputEx)) "2024-01-02" "Tasks" =
      (reportEntries reportStoreEx reportInputEx).filter
        (fun e => e.date = "2024-01-02" &&
          categoryLabel (list_categories_db reportStoreEx.categories) e =
            "Tasks") ∧
    (buildGrouped (list_categories_db reportStoreEx.categories)
        (reportEntries reportStoreEx reportInputEx) = [] ↔
      reportEntries reportStoreEx reportInputEx = []) := by
  have h := generate_report_spec reportStoreEx reportInputEx
    "2024-02-01T00:00:00Z"
    ⟨"sp1", "sprint-1", "Sprint One", "2024-01-01", some "2024-01-14", "T0"⟩
    (by decide)
  exact ⟨h.2.2.1, h.2.2.2.2.2.1 "2024-01-02" "Tasks", h.2.2.2.2.2.2.1⟩

end DevlogDesk
